import Mathlib

set_option maxHeartbeats 1000000

/- Verification development for the TAPIR belief-tree solver sources:
   the ActionNode Q-statistics (src/solver/ActionNode.cpp), the discrete
   observation mapping and its text serialization
   (src/solver/mappings/discrete_observations.cpp), and the Nav2D model's
   path interpolation and change loading (src/problems/nav2d/Nav2DModel.cpp).
   C++ doubles are modelled as rationals (exact arithmetic) except for the
   Nav2D geometry, which is modelled over the reals; C++ longs are modelled
   as integers. -/

namespace Solver

/-- A C++ double as stored in the solver's Q-statistics: either a finite
value (modelled as a rational) or the −∞ sentinel that
`ActionNode::recalculateQValue` assigns to the mean Q of a node with no
particles. -/
inductive DVal where
  | negInf : DVal
  | fin : ℚ → DVal
deriving DecidableEq

/-- The statistics stored in `solver::ActionNode`: the particle (visit)
count `nParticles_`, the running total Q-value `totalQValue_` and the
derived mean `meanQValue_`.  The observation mapping is kept separately
(see `DiscreteObservationMap`). -/
structure ActionNode where
  nParticles : ℤ
  totalQValue : ℚ
  meanQValue : DVal
deriving DecidableEq

/-- The `ActionNode` constructor: zero particles, zero total Q and the −∞
mean sentinel (ActionNode.cpp lines 20-25). -/
def ActionNode.init : ActionNode :=
  { nParticles := 0, totalQValue := 0, meanQValue := DVal.negInf }

/-- `ActionNode::recalculateQValue` (ActionNode.cpp lines 60-67): with a
positive particle count the mean is total/count; otherwise the total is
reset to 0 and the mean to −∞. -/
def ActionNode.recalculateQValue (node : ActionNode) : ActionNode :=
  if 0 < node.nParticles then
    { node with meanQValue := DVal.fin (node.totalQValue / (node.nParticles : ℚ)) }
  else
    { node with totalQValue := 0, meanQValue := DVal.negInf }

/-- `ActionNode::changeTotalQValue` (ActionNode.cpp lines 31-35). -/
def ActionNode.changeTotalQValue (node : ActionNode) (deltaQ : ℚ)
    (deltaNParticles : ℤ) : ActionNode :=
  ActionNode.recalculateQValue
    { node with
        totalQValue := node.totalQValue + deltaQ,
        nParticles := node.nParticles + deltaNParticles }

/-- The data of the child belief node as read by
`ActionNode::updateSequenceCount`: its particle count, its starting- and
ending-sequence counters, and its Q-value before (`qBefore`) and after
(`qAfter`) the child's own `recalculateQValue` call.  `BeliefNode`'s own
code is not among the extracted sources, so these five values are taken as
given data. -/
structure ChildBelief where
  nParticles : ℤ
  numberOfStartingSequences : ℤ
  numberOfEndingSequences : ℤ
  qBefore : ℚ
  qAfter : ℚ
deriving DecidableEq

/-- The new sequence count computed by `ActionNode::updateSequenceCount`
(ActionNode.cpp lines 41-43): child particles − starting sequences +
ending sequences. -/
def ChildBelief.newSequenceCount (child : ChildBelief) : ℤ :=
  child.nParticles - child.numberOfStartingSequences
    + child.numberOfEndingSequences

/-- `ActionNode::updateSequenceCount` (ActionNode.cpp lines 37-58): the
total Q drops the old sequence's discounted contribution and adds the new
one (each term skipped when its sequence count is zero), the particle
count moves by `deltaNParticles`, and the mean is then recalculated. -/
def ActionNode.updateSequenceCount (node : ActionNode) (child : ChildBelief)
    (discountFactor : ℚ) (deltaNParticles : ℤ) : ActionNode :=
  let newSequenceCount : ℤ := child.newSequenceCount
  let oldSequenceCount : ℤ := newSequenceCount - deltaNParticles
  let q1 : ℚ :=
    if oldSequenceCount ≠ 0 then
      node.totalQValue - (oldSequenceCount : ℚ) * discountFactor * child.qBefore
    else
      node.totalQValue
  let q2 : ℚ :=
    if newSequenceCount ≠ 0 then
      q1 + (newSequenceCount : ℚ) * discountFactor * child.qAfter
    else
      q1
  ActionNode.recalculateQValue
    { node with
        totalQValue := q2,
        nParticles := node.nParticles + deltaNParticles }

/-- The mean-Q consistency property of an action node: a positive particle
count forces mean = total/count, and a zero particle count forces the −∞
sentinel. -/
def ActionNode.qConsistent (node : ActionNode) : Prop :=
  (0 < node.nParticles →
    node.meanQValue = DVal.fin (node.totalQValue / (node.nParticles : ℚ))) ∧
  (node.nParticles = 0 → node.meanQValue = DVal.negInf)

/-- The zero-particle property of an action node: no particles means the
total Q has been reset to 0 and the mean is the −∞ sentinel. -/
def ActionNode.zeroParticleReset (node : ActionNode) : Prop :=
  node.nParticles = 0 →
    node.totalQValue = 0 ∧ node.meanQValue = DVal.negInf

/-- The action pool as the discrete observation mapping uses it: a factory
for the action mappings of freshly created belief nodes
(`actionPool_->createActionMapping()`).  The action-mapping type `AM` is
opaque here. -/
structure ActionPool (AM : Type) where
  createActionMapping : AM
deriving DecidableEq

/-- A belief node as the discrete observation mapping sees it: its id and
the action mapping it was constructed with.  `BeliefNode`'s own sources
are not among the extracted files; ids are assigned externally (by the
belief tree), so a freshly constructed node carries the placeholder id 0
until `setNodeId` (the model of `BeliefTree::setNode`) assigns one. -/
structure BeliefNode (AM : Type) where
  id : ℤ
  actionMapping : AM
deriving DecidableEq

/-- `solver::DiscreteObservationMapEntry` (discrete_observations.hpp lines
41-44): a child belief node pointer defaulting to null and a visit count
defaulting to 0. -/
structure DiscreteObservationMapEntry (AM : Type) where
  childNode : Option (BeliefNode AM)
  visitCount : ℤ
deriving DecidableEq

/-- The default-constructed entry (null child, zero visits). -/
def defaultEntry (AM : Type) : DiscreteObservationMapEntry AM :=
  { childNode := none, visitCount := 0 }

/-- `solver::DiscreteObservationMap` (discrete_observations.hpp lines
46-82): the `unordered_map` keyed by observation hash/equality is modelled
as an association list with no duplicate keys ever created, plus the
cached `totalVisitCount_`. -/
structure DiscreteObservationMap (Obs AM : Type) where
  actionPool : ActionPool AM
  childMap : List (Obs × DiscreteObservationMapEntry AM)
  totalVisitCount : ℤ
deriving DecidableEq

/-- Lookup of the entry stored for an observation equal to `o`
(`childMap_.at` / `childMap_.find` keyed by the observation's
hash/equality). -/
def findEntry {Obs AM : Type} [DecidableEq Obs] :
    List (Obs × DiscreteObservationMapEntry AM) → Obs →
      Option (DiscreteObservationMapEntry AM)
  | [], _ => none
  | (o', e) :: rest, o => if o' = o then some e else findEntry rest o

/-- Replacement of the first entry stored for `o` (or an append when none
exists): the semantics of assigning through `childMap_[obs]`. -/
def setEntry {Obs AM : Type} [DecidableEq Obs] :
    List (Obs × DiscreteObservationMapEntry AM) → Obs →
      DiscreteObservationMapEntry AM →
      List (Obs × DiscreteObservationMapEntry AM)
  | [], o, e => [(o, e)]
  | (o', e') :: rest, o, e =>
      if o' = o then (o', e) :: rest else (o', e') :: setEntry rest o e

/-- The `DiscreteObservationMap` constructor (discrete_observations.cpp
lines 35-39): empty child map, zero total visit count. -/
def DiscreteObservationMap.init {Obs AM : Type} (pool : ActionPool AM) :
    DiscreteObservationMap Obs AM :=
  { actionPool := pool, childMap := [], totalVisitCount := 0 }

/-- `DiscreteObservationMap::getBelief` (discrete_observations.cpp lines
41-47): the entry's child pointer when an entry exists (which can itself
be null), and null (`out_of_range` caught) when none does. -/
def DiscreteObservationMap.getBelief {Obs AM : Type} [DecidableEq Obs]
    (m : DiscreteObservationMap Obs AM) (o : Obs) : Option (BeliefNode AM) :=
  match findEntry m.childMap o with
  | none => none
  | some e => e.childNode

/-- The belief node freshly allocated by `createBelief`:
`new BeliefNode(actionPool_->createActionMapping())`, id not yet
assigned. -/
def DiscreteObservationMap.freshNode {Obs AM : Type}
    (m : DiscreteObservationMap Obs AM) : BeliefNode AM :=
  { id := 0, actionMapping := m.actionPool.createActionMapping }

/-- `DiscreteObservationMap::createBelief` (discrete_observations.cpp
lines 49-58): allocates a fresh belief node, `emplace`s it under a copy of
the observation (`emplace` inserts only when the key is absent), and
returns the pointer to the fresh node. -/
def DiscreteObservationMap.createBelief {Obs AM : Type} [DecidableEq Obs]
    (m : DiscreteObservationMap Obs AM) (o : Obs) :
    BeliefNode AM × DiscreteObservationMap Obs AM :=
  let node := m.freshNode
  (node,
    if (findEntry m.childMap o).isSome then m
    else { m with
      childMap := m.childMap
        ++ [(o, { childNode := some node, visitCount := 0 })] })

/-- `DiscreteObservationMap::getNChildren` (discrete_observations.cpp
lines 60-62): the number of entries of the child map. -/
def DiscreteObservationMap.getNChildren {Obs AM : Type}
    (m : DiscreteObservationMap Obs AM) : ℤ :=
  (m.childMap.length : ℤ)

/-- `DiscreteObservationMap::updateVisitCount` (discrete_observations.cpp
lines 64-68): `childMap_[obs].visitCount += delta` (`operator[]`
default-constructs a missing entry), then `totalVisitCount_ += delta`. -/
def DiscreteObservationMap.updateVisitCount {Obs AM : Type} [DecidableEq Obs]
    (m : DiscreteObservationMap Obs AM) (o : Obs) (k : ℤ) :
    DiscreteObservationMap Obs AM :=
  let old := (findEntry m.childMap o).getD (defaultEntry AM)
  { m with
      childMap := setEntry m.childMap o
        { old with visitCount := old.visitCount + k },
      totalVisitCount := m.totalVisitCount + k }

/-- `DiscreteObservationMap::getVisitCount` (discrete_observations.cpp
lines 69-71): `childMap_.at(obs).visitCount`; `none` models the
`out_of_range` thrown for a missing entry. -/
def DiscreteObservationMap.getVisitCount {Obs AM : Type} [DecidableEq Obs]
    (m : DiscreteObservationMap Obs AM) (o : Obs) : Option ℤ :=
  (findEntry m.childMap o).map (fun e => e.visitCount)

/-- `DiscreteObservationMap::getTotalVisitCount` (discrete_observations.cpp
lines 72-74). -/
def DiscreteObservationMap.getTotalVisitCount {Obs AM : Type}
    (m : DiscreteObservationMap Obs AM) : ℤ :=
  m.totalVisitCount

/-- `ActionNode::createOrGetChild` (ActionNode.cpp lines 89-97), acting on
the node's observation mapping: returns the existing child with
`added = false`, or the result of `createBelief` with `added = true`. -/
def DiscreteObservationMap.createOrGetChild {Obs AM : Type} [DecidableEq Obs]
    (m : DiscreteObservationMap Obs AM) (o : Obs) :
    (BeliefNode AM × Bool) × DiscreteObservationMap Obs AM :=
  match m.getBelief o with
  | some b => ((b, false), m)
  | none =>
      let r := m.createBelief o
      ((r.1, true), r.2)

/-- One mutating call on a discrete observation mapping, for stating
invariants over arbitrary call sequences. -/
inductive MapOp (Obs : Type) where
  | create : Obs → MapOp Obs
  | update : Obs → ℤ → MapOp Obs

/-- Application of one mutating call. -/
def DiscreteObservationMap.applyOp {Obs AM : Type} [DecidableEq Obs]
    (m : DiscreteObservationMap Obs AM) : MapOp Obs →
      DiscreteObservationMap Obs AM
  | MapOp.create o => (m.createBelief o).2
  | MapOp.update o k => m.updateVisitCount o k

/-- Application of a finite sequence of mutating calls. -/
def DiscreteObservationMap.applyOps {Obs AM : Type} [DecidableEq Obs]
    (m : DiscreteObservationMap Obs AM) (ops : List (MapOp Obs)) :
    DiscreteObservationMap Obs AM :=
  ops.foldl DiscreteObservationMap.applyOp m

/-- The sum of the visit counts over the mapping's entries. -/
def visitCountSum {Obs AM : Type} (m : DiscreteObservationMap Obs AM) : ℤ :=
  (m.childMap.map (fun p => p.2.visitCount)).sum

/-- The number of entries of the mapping that carry a non-null child
belief node. -/
def countRealChildren {Obs AM : Type}
    (m : DiscreteObservationMap Obs AM) : ℤ :=
  ((m.childMap.filter (fun p => p.2.childNode.isSome)).length : ℤ)

/-- Whitespace as istream extraction skips it; space and tab are the only
whitespace occurring inside the line-oriented formats modelled here. -/
def isWSChar (c : Char) : Bool :=
  c = ' ' || c = '\t'

/-- Skipping leading whitespace, as formatted istream extraction does. -/
def dropWS : List Char → List Char
  | [] => []
  | c :: cs => if isWSChar c then dropWS cs else c :: cs

/-- Decimal digit test on a character. -/
def isDigitChar (c : Char) : Bool :=
  48 ≤ c.toNat && c.toNat ≤ 57

/-- The numeric value of a decimal digit character. -/
def charToDigit (c : Char) : ℕ :=
  c.toNat - 48

/-- Reading a maximal run of decimal digits into an accumulator. -/
def readDigits (acc : ℕ) : List Char → ℕ × List Char
  | [] => (acc, [])
  | c :: cs =>
      if isDigitChar c then readDigits (acc * 10 + charToDigit c) cs
      else (acc, c :: cs)

/-- A long read by `operator>>` from a well-formed stream: skip
whitespace, then an optional minus sign and decimal digits. -/
def readInt (l : List Char) : ℤ × List Char :=
  let l2 := dropWS l
  if l2.head? = some '-' then
    let r := readDigits 0 l2.tail
    (-(r.1 : ℤ), r.2)
  else
    let r := readDigits 0 l2
    ((r.1 : ℤ), r.2)

/-- The maximal non-whitespace run at the head of the stream. -/
def takeTok : List Char → List Char × List Char
  | [] => ([], [])
  | c :: cs =>
      if isWSChar c then ([], c :: cs)
      else
        let r := takeTok cs
        (c :: r.1, r.2)

/-- A string read by `operator>>`: skip whitespace, then the maximal
non-whitespace run. -/
def readToken (l : List Char) : List Char × List Char :=
  takeTok (dropWS l)

/-- `std::getline(stream, str, delim)`: the prefix before the first
delimiter; the delimiter itself is consumed. -/
def getlineUntil (delim : Char) : List Char → List Char × List Char
  | [] => ([], [])
  | c :: cs =>
      if c = delim then ([], cs)
      else
        let r := getlineUntil delim cs
        (c :: r.1, r.2)

/-- The character of a decimal digit. -/
def digitChar (d : ℕ) : Char :=
  Char.ofNat (48 + d)

/-- Decimal printing of a natural number, as `operator<<` produces it. -/
def natToChars (n : ℕ) : List Char :=
  if _h : n < 10 then [digitChar n]
  else natToChars (n / 10) ++ [digitChar (n % 10)]
termination_by n
decreasing_by
exact Nat.div_lt_self (by omega) (by omega)

/-- Decimal printing of a long, as `operator<<` produces it. -/
def intToChars (i : ℤ) : List Char :=
  if i < 0 then '-' :: natToChars i.natAbs else natToChars i.toNat

/-- Lexicographic comparison of strings by character value:
`std::string`'s ordering as `std::sort` uses it on the entry lines. -/
def lexLe : List Char → List Char → Bool
  | [], _ => true
  | _ :: _, [] => false
  | a :: as, b :: bs =>
      if a.toNat < b.toNat then true
      else if b.toNat < a.toNat then false
      else lexLe as bs

/-- The per-observation-type serializer that
`DiscreteObservationTextSerializer` relies on: `saveObservation` prints
the observation and `loadObservation` parses it back from the stream.
They are virtual methods whose implementations (one per problem) are not
among the extracted sources, so they are carried as data; the round-trip
obligation on them is a hypothesis of the round-trip theorem. -/
structure ObsTextSerializer (Obs : Type) where
  saveObs : Obs → List Char
  loadObs : List Char → Obs × List Char

/-- The id printed for an entry: `entry.second.childNode->getId()`.  The
C++ dereferences the child pointer unconditionally (a null child there is
undefined behaviour); a null child is rendered as id 0 here and excluded
by hypothesis where it matters. -/
def childIdOf {AM : Type} (e : DiscreteObservationMapEntry AM) : ℤ :=
  match e.childNode with
  | some n => n.id
  | none => 0

/-- The entry rebuilt by one load-loop iteration: a child node carrying
the persisted id and the action mapping `A` produced by the loading
pool, and the persisted visit count. -/
def loadedEntry {AM : Type} (A : AM) (e : DiscreteObservationMapEntry AM) :
    DiscreteObservationMapEntry AM :=
  { childNode := some { id := childIdOf e, actionMapping := A },
    visitCount := e.visitCount }

/-- One entry line of the persisted mapping
(discrete_observations.cpp lines 95-103):
tab, observation, " -> NODE ", child id, "; ", visit count, " visits". -/
def entryLine {Obs AM : Type} (ser : ObsTextSerializer Obs)
    (p : Obs × DiscreteObservationMapEntry AM) : List Char :=
  '\t' :: (ser.saveObs p.1 ++ (" -> NODE ".toList
    ++ (intToChars (childIdOf p.2) ++ ("; ".toList
    ++ (intToChars p.2.visitCount ++ " visits".toList)))))

/-- The header line of the persisted mapping
(discrete_observations.cpp lines 92-93). -/
def headerLine {Obs AM : Type} (m : DiscreteObservationMap Obs AM) :
    List Char :=
  natToChars m.childMap.length ++ (" observation children; ".toList
    ++ (intToChars m.totalVisitCount ++ " visits \x7b".toList))

/-- `DiscreteObservationTextSerializer::saveObservationMapping`
(discrete_observations.cpp lines 88-109), the output stream modelled as
the list of lines it receives: the header, one line per child entry
sorted lexicographically, and the closing brace. -/
def saveObservationMapping {Obs AM : Type} (ser : ObsTextSerializer Obs)
    (m : DiscreteObservationMap Obs AM) : List (List Char) :=
  headerLine m
    :: ((m.childMap.map (entryLine ser)).mergeSort lexLe
      ++ ["\x7d".toList])

/-- The model of `solver_->getPolicy()->setNode(childId, node)` during
load.  Modelled from the spec: the belief tree (not among the extracted
sources) registers the freshly created node under the persisted id —
round-trip property 8 of the spec requires node ids to be reproduced — so
here the id is written into the child node stored for `o`. -/
def setNodeId {Obs AM : Type} [DecidableEq Obs]
    (m : DiscreteObservationMap Obs AM) (o : Obs) (nodeId : ℤ) :
    DiscreteObservationMap Obs AM :=
  { m with childMap := m.childMap.map (fun p =>
      if p.1 = o then
        (p.1, { p.2 with
          childNode := Option.map (fun n => { n with id := nodeId }) p.2.childNode })
      else p) }

/-- `childMap_[obs->copy()].visitCount = visitCount` during load:
`operator[]` (default-constructing a missing entry) followed by plain
assignment; the cached total visit count is not touched. -/
def assignVisitCount {Obs AM : Type} [DecidableEq Obs]
    (m : DiscreteObservationMap Obs AM) (o : Obs) (v : ℤ) :
    DiscreteObservationMap Obs AM :=
  let old := (findEntry m.childMap o).getD (defaultEntry AM)
  { m with childMap := setEntry m.childMap o { old with visitCount := v } }

/-- One iteration of the load loop (discrete_observations.cpp lines
125-141): parse the observation, skip the "->" and "NODE" tokens, read
the id up to the semicolon, read the visit count; then create the child
belief, register its id and assign its visit count. -/
def loadEntryLine {Obs AM : Type} [DecidableEq Obs]
    (ser : ObsTextSerializer Obs) (m : DiscreteObservationMap Obs AM)
    (line : List Char) : DiscreteObservationMap Obs AM :=
  let r0 := ser.loadObs line
  let o := r0.1
  let r1 := readToken r0.2
  let r2 := readToken r1.2
  let r3 := getlineUntil ';' r2.2
  let childId := (readInt r3.1).1
  let visits := (readInt r3.2).1
  let m1 := (m.createBelief o).2
  let m2 := setNodeId m1 o childId
  assignVisitCount m2 o visits

/-- The load loop, reading one line per expected child (a missing line is
read as the empty line, matching `getline` failing at end of stream). -/
def loadEntryLines {Obs AM : Type} [DecidableEq Obs]
    (ser : ObsTextSerializer Obs) :
    ℕ → DiscreteObservationMap Obs AM → List (List Char) →
      DiscreteObservationMap Obs AM
  | 0, m, _ => m
  | n + 1, m, [] => loadEntryLines ser n (loadEntryLine ser m []) []
  | n + 1, m, line :: rest =>
      loadEntryLines ser n (loadEntryLine ser m line) rest

/-- `DiscreteObservationTextSerializer::loadObservationMapping`
(discrete_observations.cpp lines 111-145), the input stream modelled as
the list of its lines: a fresh mapping is created from the pool, the
header yields the child count and the total visit count, then one entry
per line is rebuilt; the closing-brace line is read and ignored. -/
def loadObservationMapping {Obs AM : Type} [DecidableEq Obs]
    (ser : ObsTextSerializer Obs) (pool : ActionPool AM)
    (lines : List (List Char)) : DiscreteObservationMap Obs AM :=
  match lines with
  | [] => DiscreteObservationMap.init pool
  | header :: rest =>
      let r1 := readInt header
      let nChildren := r1.1
      let r2 := readToken r1.2
      let r3 := readToken r2.2
      let tv := (readInt r3.2).1
      loadEntryLines ser nChildren.toNat
        { DiscreteObservationMap.init pool with totalVisitCount := tv } rest

/-- A concrete observation serializer over natural-number observations,
used to witness the round-trip theorem: an observation prints as its
decimal digits between parentheses. -/
def natObsSerializer : ObsTextSerializer ℕ :=
  { saveObs := fun n => '(' :: (natToChars n ++ [')']),
    loadObs := fun l =>
      match l with
      | c1 :: (c2 :: rest) =>
          if c1 = '\t' ∧ c2 = '(' then
            let r := readDigits 0 rest
            if r.2.head? = some ')' then (r.1, r.2.tail) else (r.1, r.2)
          else (0, l)
      | _ => (0, l) }

/-- A fresh discrete observation mapping over natural-number
observations, used by concrete witnesses and counterexamples. -/
def initNatUnit : DiscreteObservationMap ℕ Unit :=
  DiscreteObservationMap.init { createActionMapping := () }

/-- A small concrete mapping used to witness the round-trip theorem. -/
def sampleMap : DiscreteObservationMap ℕ Unit :=
  { actionPool := { createActionMapping := () },
    childMap :=
      [(31, { childNode := some { id := 7, actionMapping := () }, visitCount := 2 }),
       (5, { childNode := some { id := -1, actionMapping := () }, visitCount := 14 })],
    totalVisitCount := 16 }

end Solver


namespace Nav2D

open scoped Classical

/-- A planar point, as `geometry::Point2D` stores it.  The geometry
primitives (`Point2D`, `Vector2D`, `Rectangle2D`) are external
collaborators whose sources are not under src/; they are modelled from
the spec here with real coordinates. -/
structure Point2D where
  x : ℝ
  y : ℝ

/-- A planar vector by its Cartesian components. -/
structure Vector2D where
  x : ℝ
  y : ℝ

/-- Modelled from the spec: the `Vector2D(magnitude, direction)`
constructor of the missing geometry library builds a vector from a
magnitude and a direction; directions are measured in turns (the
navigation code offsets a direction by 0.25 for a quarter turn), so the
components are magnitude·cos(2π·direction) and
magnitude·sin(2π·direction). -/
noncomputable def Vector2D.polar (magnitude direction : ℝ) : Vector2D :=
  { x := magnitude * Real.cos (2 * Real.pi * direction),
    y := magnitude * Real.sin (2 * Real.pi * direction) }

/-- Point plus vector (`operator+`). -/
def Point2D.addVec (p : Point2D) (v : Vector2D) : Point2D :=
  { x := p.x + v.x, y := p.y + v.y }

/-- Point difference (`operator-`), yielding a vector. -/
def Point2D.sub (p q : Point2D) : Vector2D :=
  { x := p.x - q.x, y := p.y - q.y }

/-- `Vector2D::getMagnitude`. -/
noncomputable def Vector2D.magnitude (v : Vector2D) : ℝ :=
  Real.sqrt (v.x ^ 2 + v.y ^ 2)

/-- Scalar times vector (`operator*`). -/
def Vector2D.smul (c : ℝ) (v : Vector2D) : Vector2D :=
  { x := c * v.x, y := c * v.y }

/-- Modelled from the spec: `geometry::Rectangle2D` with its containment
test (axis-aligned, closed). -/
structure Rectangle2D where
  x0 : ℝ
  y0 : ℝ
  x1 : ℝ
  y1 : ℝ

/-- Containment of a point in a rectangle (`Rectangle2D::contains`). -/
def Rectangle2D.contains (r : Rectangle2D) (p : Point2D) : Prop :=
  r.x0 ≤ p.x ∧ p.x ≤ r.x1 ∧ r.y0 ≤ p.y ∧ p.y ≤ r.y1

/-- The Nav2D state as `tryPath` reads it: position and direction
(`Nav2DState`; its cost fields play no role in the dynamics). -/
structure Nav2DState where
  x : ℝ
  y : ℝ
  direction : ℝ

/-- The Nav2D model configuration consumed by `tryPath`
(Nav2DModel.cpp constructor): the problem parameters and the map areas
relevant to the path loop.  `interpolationStepCount_` is read as a double
in the C++ but only ever used as a loop bound, so it is a natural number
here. -/
structure Nav2DModel where
  timeStepLength : ℝ
  costPerUnitTime : ℝ
  interpolationStepCount : ℕ
  crashPenalty : ℝ
  goalReward : ℝ
  maxSpeed : ℝ
  costPerUnitDistance : ℝ
  costPerRevolution : ℝ
  mapArea : Rectangle2D
  obstacles : List Rectangle2D
  goals : List Rectangle2D

/-- `Nav2DModel::isInside` (Nav2DModel.cpp lines 502-509): membership in
any rectangle of the given area list. -/
def isInside (areas : List Rectangle2D) (p : Point2D) : Prop :=
  ∃ r ∈ areas, r.contains p

/-- The angular offset actually passed to `Vector2D` when computing the
center of rotation and the interpolated positions (Nav2DModel.cpp lines
307-308 and 320-321): C++ operator precedence parses
`direction + turnAmount > 0 ? 0.25 : -0.25` as a comparison of the sum,
with the ternary result forming the entire direction argument. -/
noncomputable def centerOffsetAngle (direction turnAmount : ℝ) : ℝ :=
  if direction + turnAmount > 0 then 0.25 else -0.25

/-- Modelled from the spec: the intended angular offset per the design
note — `direction + (turnAmount > 0 ? 0.25 : −0.25)`, a quarter turn
added to (or subtracted from) the direction, the choice depending on the
sign of the turn amount alone. -/
noncomputable def centerOffsetAngleSpec (direction turnAmount : ℝ) : ℝ :=
  direction + (if turnAmount > 0 then (0.25 : ℝ) else -0.25)

/-- The mutable state of the interpolation loop in `tryPath`. -/
structure LoopState where
  currentScalar : ℝ
  currentPosition : Point2D
  currentDirection : ℝ
  inGoal : Bool
  hasCollision : Bool

/-- The loop-invariant data of one `tryPath` call. -/
structure TryPathEnv where
  m : Nav2DModel
  position : Point2D
  direction : ℝ
  turnAmount : ℝ
  radius : ℝ
  velocity : Vector2D
  center : Point2D

/-- The advance of one interpolation step of `tryPath` (Nav2DModel.cpp
lines 315-322): the new interpolation scalar and the new position — along
the straight velocity line when the turn amount is zero, otherwise around
the center of rotation with the (precedence-afflicted) offset angle, also
updating the direction. -/
noncomputable def tryPathStep (env : TryPathEnv) (step : ℕ)
    (ls : LoopState) : LoopState :=
  let currentScalar := (step : ℝ) / (env.m.interpolationStepCount : ℝ)
  if env.turnAmount = 0 then
    { currentScalar := currentScalar,
      currentPosition :=
        env.position.addVec (Vector2D.smul currentScalar env.velocity),
      currentDirection := ls.currentDirection,
      inGoal := ls.inGoal, hasCollision := ls.hasCollision }
  else
    let d := env.direction + currentScalar * env.turnAmount
    { currentScalar := currentScalar,
      currentPosition := env.center.addVec
        (Vector2D.polar env.radius (centerOffsetAngle d env.turnAmount)),
      currentDirection := d,
      inGoal := ls.inGoal, hasCollision := ls.hasCollision }

/-- The interpolation loop of `tryPath` (Nav2DModel.cpp lines 310-335):
each step advances the interpolation point; hitting the map boundary or
an obstacle reverts to the previous interpolation point, records the
collision and stops; reaching a goal records it and stops. -/
noncomputable def tryPathGo (env : TryPathEnv) :
    List ℕ → LoopState → LoopState
  | [], ls => ls
  | step :: rest, ls =>
      let next := tryPathStep env step ls
      if ¬ env.m.mapArea.contains next.currentPosition ∨
          isInside env.m.obstacles next.currentPosition then
        { ls with hasCollision := true }
      else if isInside env.m.goals next.currentPosition then
        { next with inGoal := true }
      else
        tryPathGo env rest next

/-- The loop of `Nav2DModel::tryPath` with its initialisation
(Nav2DModel.cpp lines 292-335), returning the final loop state. -/
noncomputable def tryPathLoop (m : Nav2DModel) (state : Nav2DState)
    (speed rotationalSpeed : ℝ) : LoopState :=
  let position : Point2D := { x := state.x, y := state.y }
  let direction := state.direction
  let radius := speed / (2 * Real.pi * rotationalSpeed)
  let turnAmount := rotationalSpeed * m.timeStepLength
  let velocity := Vector2D.polar speed direction
  let center := position.addVec
    (Vector2D.polar radius (centerOffsetAngle direction turnAmount))
  tryPathGo
    { m := m, position := position, direction := direction,
      turnAmount := turnAmount, radius := radius, velocity := velocity,
      center := center }
    (List.range' 1 m.interpolationStepCount)
    { currentScalar := 0, currentPosition := position,
      currentDirection := direction, inGoal := false, hasCollision := false }

/-- `Nav2DModel::tryPath` (Nav2DModel.cpp lines 292-362): the resulting
state and the reward — time cost, distance cost, rotation cost, plus the
goal reward on reaching a goal and minus the crash penalty on a
collision. -/
noncomputable def tryPath (m : Nav2DModel) (state : Nav2DState)
    (speed rotationalSpeed : ℝ) : Nav2DState × ℝ :=
  let position : Point2D := { x := state.x, y := state.y }
  let radius := speed / (2 * Real.pi * rotationalSpeed)
  let turnAmount := rotationalSpeed * m.timeStepLength
  let ls := tryPathLoop m state speed rotationalSpeed
  let resultingState : Nav2DState :=
    { x := ls.currentPosition.x, y := ls.currentPosition.y,
      direction := ls.currentDirection }
  let actualDistance :=
    if turnAmount = 0 then (ls.currentPosition.sub position).magnitude
    else 2 * Real.pi * |ls.currentScalar * turnAmount| * radius
  let actualTurnAmount : ℝ :=
    if turnAmount = 0 then 0 else |ls.currentScalar * turnAmount|
  let reward1 : ℝ := 0 - m.costPerUnitTime * m.timeStepLength
  let reward2 := reward1 - m.costPerUnitDistance * actualDistance
  let reward3 := reward2 - m.costPerRevolution * actualTurnAmount
  let reward4 := if ls.inGoal then reward3 + m.goalReward else reward3
  let reward5 := if ls.hasCollision then reward4 - m.crashPenalty else reward4
  (resultingState, reward5)

/-- The scenario-S3 model: unit time step and speed, ten interpolation
steps, a large empty map, no obstacles and no goal areas; the cost and
reward parameters stay symbolic. -/
noncomputable def s3Model (cpt cpd cpr crash goal : ℝ) : Nav2DModel :=
  { timeStepLength := 1, costPerUnitTime := cpt,
    interpolationStepCount := 10, crashPenalty := crash, goalReward := goal,
    maxSpeed := 1, costPerUnitDistance := cpd, costPerRevolution := cpr,
    mapArea := { x0 := -100, y0 := -100, x1 := 100, y1 := 100 },
    obstacles := [], goals := [] }

/-- One agent step of scenario S3: apply `tryPath` at full speed with
zero rotational speed and accumulate the reward. -/
noncomputable def s3Step (m : Nav2DModel) (p : Nav2DState × ℝ) :
    Nav2DState × ℝ :=
  let r := tryPath m p.1 1 0
  (r.1, p.2 + r.2)

/-- The area types of the navigation map (Nav2DModel.hpp). -/
inductive AreaType where
  | world : AreaType
  | start : AreaType
  | observation : AreaType
  | goal : AreaType
  | obstacle : AreaType
  | empty : AreaType
  | outOfBounds : AreaType
deriving DecidableEq

/-- `Nav2DModel::parseAreaType` (Nav2DModel.cpp lines 160-179); an
unknown type string warns and falls back to Empty. -/
def parseAreaType (text : List Char) : AreaType :=
  if text = "World".toList then AreaType.world
  else if text = "Start".toList then AreaType.start
  else if text = "Observation".toList then AreaType.observation
  else if text = "Goal".toList then AreaType.goal
  else if text = "Obstacle".toList then AreaType.obstacle
  else if text = "Empty".toList then AreaType.empty
  else if text = "OOB".toList then AreaType.outOfBounds
  else AreaType.empty

/-- One parsed map change (`Nav2DChange`): the operation string, area
type, id, and the raw remainder of the line holding the rectangle (the
geometry `operator>>` is an external collaborator). -/
structure Nav2DChange where
  operation : List Char
  type : AreaType
  id : ℤ
  area : List Char
deriving DecidableEq

/-- One change line of `Nav2DModel::loadChanges` (Nav2DModel.cpp lines
430-442): the operation token is read first; an operation other than
"ADD" is reported and the line is skipped (`continue`), otherwise the
area type, id and rectangle are read and the change is kept. -/
def parseChangeLine (line : List Char) : Option Nav2DChange :=
  let r1 := Solver.readToken line
  if r1.1 ≠ "ADD".toList then none
  else
    let r2 := Solver.readToken r1.2
    let r3 := Solver.readInt r2.2
    some { operation := r1.1, type := parseAreaType r2.1, id := r3.1,
           area := r3.2 }

/-- Assignment `changes_[time] = …` into the model's change map,
modelled as replace-first-or-append on an association list. -/
def setTime : List (ℤ × List Nav2DChange) → ℤ → List Nav2DChange →
    List (ℤ × List Nav2DChange)
  | [], t, cs => [(t, cs)]
  | (t', cs') :: rest, t, cs =>
      if t' = t then (t', cs) :: rest else (t', cs') :: setTime rest t cs

/-- Lookup in the model's change map. -/
def lookupTime : List (ℤ × List Nav2DChange) → ℤ →
    Option (List Nav2DChange)
  | [], _ => none
  | (t', cs') :: rest, t => if t' = t then some cs' else lookupTime rest t

/-- The inner loop of `loadChanges` (lines 426-443): read the announced
number of change lines, keeping the parsed "ADD" changes in order and
skipping the rest; a missing line is read as the empty line (a failing
`getline`), which parses as an unknown operation and is skipped. -/
def loadChangeBlock : ℕ → List (List Char) → List Nav2DChange →
    List Nav2DChange × List (List Char)
  | 0, rest, acc => (acc, rest)
  | n + 1, [], acc => loadChangeBlock n [] (acc ++ (parseChangeLine []).toList)
  | n + 1, line :: rest, acc =>
      loadChangeBlock n rest (acc ++ (parseChangeLine line).toList)

/-- The outer loop of `Nav2DModel::loadChanges` (lines 412-447): each
block header `t <time> n <count>` resets the stored changes for that
time, appends the time to the returned list, and consumes the block's
change lines. -/
def loadChangesGo : List (List Char) → List ℤ →
    List (ℤ × List Nav2DChange) → List ℤ × List (ℤ × List Nav2DChange)
  | [], times, cmap => (times, cmap)
  | line :: rest, times, cmap =>
      let r1 := Solver.readToken line
      let r2 := Solver.readInt r1.2
      let r3 := Solver.readToken r2.2
      let r4 := Solver.readInt r3.2
      let t := r2.1
      let b := loadChangeBlock r4.1.toNat rest []
      loadChangesGo b.2 (times ++ [t]) (setTime cmap t b.1)
termination_by lines _ _ => lines.length
decreasing_by
simp only [List.length_cons]
have h : ∀ (n : ℕ) (ls : List (List Char)) (acc : List Nav2DChange),
    (loadChangeBlock n ls acc).2.length ≤ ls.length := by
  intro n
  induction n with
  | zero =>
      intro ls acc
      simp [loadChangeBlock]
  | succ k ih =>
      intro ls acc
      cases ls with
      | nil => simpa [loadChangeBlock] using ih [] (acc ++ (parseChangeLine []).toList)
      | cons l rest2 =>
          exact le_trans (ih rest2 _) (by simp)
exact Nat.lt_succ_of_le (h _ _ _)

/-- `Nav2DModel::loadChanges`, the input stream modelled as its lines:
returns the list of change times in file order together with the stored
change map. -/
def loadChanges (lines : List (List Char)) :
    List ℤ × List (ℤ × List Nav2DChange) :=
  loadChangesGo lines [] []

/-- The header line of one change block: `t <time> n <count>`. -/
def changeBlockHeader (t : ℤ) (n : ℕ) : List Char :=
  "t ".toList ++ (Solver.intToChars t
    ++ (" n ".toList ++ Solver.natToChars n))

/-- A changes file assembled from blocks of (time, raw change lines), in
the format of §6 of the spec. -/
def encodeBlocks (blocks : List (ℤ × List (List Char))) :
    List (List Char) :=
  (blocks.map (fun b => changeBlockHeader b.1 b.2.length :: b.2)).flatten

/-- A small concrete changes file used to witness the `loadChanges`
theorem: two blocks, one containing an unrecognized "REMOVE" line. -/
def sampleBlocks : List (ℤ × List (List Char)) :=
  [((1 : ℤ), ["ADD Obstacle 2 0 0 1 1".toList, "REMOVE Obstacle 2".toList]),
   ((3 : ℤ), [])]

end Nav2D

namespace Solver

theorem recalculateQValue_qConsistent (node : ActionNode) :
    node.recalculateQValue.qConsistent := by
  unfold ActionNode.recalculateQValue ActionNode.qConsistent
  by_cases h : 0 < node.nParticles
  · simp [h]
    omega
  · simp [h]

theorem recalculateQValue_zeroParticleReset (node : ActionNode) :
    node.recalculateQValue.zeroParticleReset := by
  unfold ActionNode.recalculateQValue ActionNode.zeroParticleReset
  by_cases h : 0 < node.nParticles
  · simp [h]
    omega
  · simp [h]

/-- Claim C1: for an action node with a child belief for the given
observation, `updateSequenceCount(o, γ, Δ)` sets the total Q-value to
Σq − oldSeq·γ·oldChildQ + newSeq·γ·newChildQ, where
newSeq = childParticles − startingSequences + endingSequences and
oldSeq = newSeq − Δ, moves the visit count to n + Δ, and recomputes the
mean Q afterwards (here stated when the resulting visit count is
positive, so the recomputation divides rather than resetting). -/
theorem updateSequenceCount_formula (node : ActionNode) (child : ChildBelief)
    (γ : ℚ) (Δ : ℤ) (hpos : 0 < node.nParticles + Δ) :
    (node.updateSequenceCount child γ Δ).nParticles = node.nParticles + Δ ∧
    (node.updateSequenceCount child γ Δ).totalQValue
      = node.totalQValue
        - ((child.newSequenceCount - Δ : ℤ) : ℚ) * γ * child.qBefore
        + ((child.newSequenceCount : ℤ) : ℚ) * γ * child.qAfter ∧
    (node.updateSequenceCount child γ Δ).meanQValue
      = DVal.fin ((node.totalQValue
        - ((child.newSequenceCount - Δ : ℤ) : ℚ) * γ * child.qBefore
        + ((child.newSequenceCount : ℤ) : ℚ) * γ * child.qAfter)
          / ((node.nParticles + Δ : ℤ) : ℚ)) := by
  unfold ActionNode.updateSequenceCount ActionNode.recalculateQValue
  by_cases hNew : child.newSequenceCount = 0
  · by_cases hD : Δ = 0
    · have hOld : child.newSequenceCount - Δ = 0 := by omega
      subst hD
      have hp : 0 < node.nParticles := by omega
      simp [hOld, hNew, hp]
    · have hOld : ¬(child.newSequenceCount - Δ = 0) := by omega
      simp [hOld, hNew, hD, hpos]
  · by_cases hOld : child.newSequenceCount - Δ = 0
    · simp [hOld, hNew, hpos]
    · simp [hOld, hNew, hpos]

theorem updateSequenceCount_formula_witness :
    ((0 : ℤ) < 1 + 1) ∧
    ((ActionNode.updateSequenceCount
        { nParticles := 1, totalQValue := 2, meanQValue := DVal.fin 2 }
        { nParticles := 3, numberOfStartingSequences := 1,
          numberOfEndingSequences := 0, qBefore := 5, qAfter := 7 }
        (1/2) 1).nParticles = 1 + 1 ∧
      (ActionNode.updateSequenceCount
        { nParticles := 1, totalQValue := 2, meanQValue := DVal.fin 2 }
        { nParticles := 3, numberOfStartingSequences := 1,
          numberOfEndingSequences := 0, qBefore := 5, qAfter := 7 }
        (1/2) 1).totalQValue
        = 2 - ((((2 : ℤ) - 1 : ℤ)) : ℚ) * (1/2) * 5 + (((2 : ℤ)) : ℚ) * (1/2) * 7 ∧
      (ActionNode.updateSequenceCount
        { nParticles := 1, totalQValue := 2, meanQValue := DVal.fin 2 }
        { nParticles := 3, numberOfStartingSequences := 1,
          numberOfEndingSequences := 0, qBefore := 5, qAfter := 7 }
        (1/2) 1).meanQValue
        = DVal.fin ((2 - ((((2 : ℤ) - 1 : ℤ)) : ℚ) * (1/2) * 5
            + (((2 : ℤ)) : ℚ) * (1/2) * 7) / ((((1 : ℤ) + 1 : ℤ)) : ℚ))) := by
  refine ⟨by decide, ?_⟩
  have h := updateSequenceCount_formula
    { nParticles := 1, totalQValue := 2, meanQValue := DVal.fin 2 }
    { nParticles := 3, numberOfStartingSequences := 1,
      numberOfEndingSequences := 0, qBefore := 5, qAfter := 7 }
    (1/2) 1 (by decide)
  simpa [ChildBelief.newSequenceCount] using h

/-- Claim C2: after construction and after every `changeTotalQValue` or
`updateSequenceCount` call, an action node's mean Q equals its total Q
divided by its visit count whenever the count is positive, and equals the
−∞ sentinel whenever the count is zero; every operation is total (no throw
and no division by zero, the guarded branch handling the zero count). -/
theorem actionNode_qConsistent :
    ActionNode.init.qConsistent ∧
    (∀ (node : ActionNode) (deltaQ : ℚ) (deltaN : ℤ),
      (node.changeTotalQValue deltaQ deltaN).qConsistent) ∧
    (∀ (node : ActionNode) (child : ChildBelief) (γ : ℚ) (Δ : ℤ),
      (node.updateSequenceCount child γ Δ).qConsistent) := by
  refine ⟨?_, ?_, ?_⟩
  · constructor
    · intro h
      exact absurd h (by decide)
    · intro _
      rfl
  · intro node deltaQ deltaN
    exact recalculateQValue_qConsistent _
  · intro node child γ Δ
    exact recalculateQValue_qConsistent _

theorem actionNode_qConsistent_witness :
    (ActionNode.changeTotalQValue
      { nParticles := 0, totalQValue := 0, meanQValue := DVal.negInf }
      5 2).meanQValue
      = DVal.fin ((ActionNode.changeTotalQValue
          { nParticles := 0, totalQValue := 0, meanQValue := DVal.negInf }
          5 2).totalQValue
        / ((ActionNode.changeTotalQValue
          { nParticles := 0, totalQValue := 0, meanQValue := DVal.negInf }
          5 2).nParticles : ℚ)) := by
  have h := actionNode_qConsistent
  exact (h.2.1 { nParticles := 0, totalQValue := 0, meanQValue := DVal.negInf }
    5 2).1 (by decide)

/-- Claim C10: every `ActionNode` operation preserves the invariant that a
node with zero particles has total Q equal to 0 and mean Q equal to −∞;
in particular `changeTotalQValue(ΔQ, 0)` on a node left at zero particles
resets the accumulated total Q to 0 rather than only the mean. -/
theorem actionNode_zeroParticleReset :
    ActionNode.init.zeroParticleReset ∧
    (∀ (node : ActionNode) (deltaQ : ℚ) (deltaN : ℤ),
      (node.changeTotalQValue deltaQ deltaN).zeroParticleReset) ∧
    (∀ (node : ActionNode) (child : ChildBelief) (γ : ℚ) (Δ : ℤ),
      (node.updateSequenceCount child γ Δ).zeroParticleReset) ∧
    (∀ (node : ActionNode) (deltaQ : ℚ),
      node.nParticles = 0 →
        (node.changeTotalQValue deltaQ 0).totalQValue = 0 ∧
        (node.changeTotalQValue deltaQ 0).meanQValue = DVal.negInf) := by
  refine ⟨?_, ?_, ?_, ?_⟩
  · intro _
    exact ⟨rfl, rfl⟩
  · intro node deltaQ deltaN
    exact recalculateQValue_zeroParticleReset _
  · intro node child γ Δ
    exact recalculateQValue_zeroParticleReset _
  · intro node deltaQ h
    exact recalculateQValue_zeroParticleReset _ (by simp [ActionNode.changeTotalQValue, ActionNode.recalculateQValue, h])

theorem actionNode_zeroParticleReset_witness :
    (ActionNode.changeTotalQValue
      { nParticles := 0, totalQValue := 0, meanQValue := DVal.negInf }
      7 0).totalQValue = 0 ∧
    (ActionNode.changeTotalQValue
      { nParticles := 0, totalQValue := 0, meanQValue := DVal.negInf }
      7 0).meanQValue = DVal.negInf := by
  have h := actionNode_zeroParticleReset
  exact h.2.2.2 { nParticles := 0, totalQValue := 0, meanQValue := DVal.negInf }
    7 rfl

theorem findEntry_append_right {Obs AM : Type} [DecidableEq Obs]
    (l : List (Obs × DiscreteObservationMapEntry AM)) (o : Obs)
    (e : DiscreteObservationMapEntry AM) (h : findEntry l o = none) :
    findEntry (l ++ [(o, e)]) o = some e := by
  induction l with
  | nil => simp [findEntry]
  | cons p rest ih =>
      obtain ⟨o', e'⟩ := p
      by_cases ho : o' = o
      · simp [findEntry, ho] at h
      · simp only [findEntry, ho, if_neg, List.cons_append] at h ⊢
        simp only [ho, if_false]
        exact ih h

theorem setEntry_of_none {Obs AM : Type} [DecidableEq Obs]
    (l : List (Obs × DiscreteObservationMapEntry AM)) (o : Obs)
    (e : DiscreteObservationMapEntry AM) (h : findEntry l o = none) :
    setEntry l o e = l ++ [(o, e)] := by
  induction l with
  | nil => simp [setEntry]
  | cons p rest ih =>
      obtain ⟨o', e'⟩ := p
      by_cases ho : o' = o
      · simp [findEntry, ho] at h
      · simp only [findEntry, ho, if_false] at h
        simp [setEntry, ho, ih h]

theorem visitSum_setEntry {Obs AM : Type} [DecidableEq Obs]
    (l : List (Obs × DiscreteObservationMapEntry AM)) (o : Obs)
    (old e : DiscreteObservationMapEntry AM)
    (h : findEntry l o = some old) :
    ((setEntry l o e).map (fun p => p.2.visitCount)).sum
      = (l.map (fun p => p.2.visitCount)).sum - old.visitCount
        + e.visitCount := by
  induction l with
  | nil => simp [findEntry] at h
  | cons p rest ih =>
      obtain ⟨o', e'⟩ := p
      by_cases ho : o' = o
      · simp only [findEntry, ho, if_true, Option.some.injEq] at h
        subst h
        simp [setEntry, ho]
        ring
      · simp only [findEntry, ho, if_false] at h
        simp only [setEntry, ho, if_false, List.map_cons, List.sum_cons, ih h]
        ring

/-- Claim C3 counterexample: on a fresh discrete observation mapping,
`updateVisitCount(0, 1)` creates an entry for observation 0, yet
`getBelief(0)` still returns null — so "returns null exactly when no
entry exists" fails; moreover a subsequent `createBelief(0)` (whose
`emplace` finds the key already present and inserts nothing) leaves
`getBelief(0)` null instead of returning the freshly allocated node. -/
theorem getBelief_entry_counterexample :
    (findEntry ((initNatUnit).updateVisitCount 0 1).childMap
        0).isSome = true ∧
    ((initNatUnit).updateVisitCount 0 1).getBelief 0
      = none ∧
    (((initNatUnit).updateVisitCount 0 1).createBelief
        0).2.getBelief 0 = none ∧
    (((initNatUnit).updateVisitCount 0 1).createBelief
        0).2.getBelief 0
      ≠ some (((initNatUnit).updateVisitCount 0 1).createBelief
        0).1 := by
  decide

/-- Claim C3 (amended): `getBelief(o)` returns null exactly when the
mapping holds no entry for an observation equal to `o` that carries a
non-null child node; after `createBelief(o)` on a mapping with no entry
at all for `o`, `getBelief(o)` returns the freshly allocated belief node,
whose action mapping is produced by the owning action pool; and
`createOrGetChild(o)` returns the existing child with `added = false`
when `getBelief(o)` is non-null, and otherwise returns the node from
`createBelief` with `added = true`. -/
theorem getBelief_createBelief_createOrGetChild (Obs AM : Type)
    [DecidableEq Obs] (m : DiscreteObservationMap Obs AM) (o : Obs) :
    (m.getBelief o = none ↔
      ∀ e, findEntry m.childMap o = some e → e.childNode = none) ∧
    (findEntry m.childMap o = none →
      ((m.createBelief o).2.getBelief o = some (m.createBelief o).1 ∧
        (m.createBelief o).1.actionMapping
          = m.actionPool.createActionMapping)) ∧
    (∀ b, m.getBelief o = some b → m.createOrGetChild o = ((b, false), m)) ∧
    (m.getBelief o = none →
      m.createOrGetChild o = (((m.createBelief o).1, true),
        (m.createBelief o).2)) := by
  refine ⟨?_, ?_, ?_, ?_⟩
  · unfold DiscreteObservationMap.getBelief
    cases hf : findEntry m.childMap o with
    | none => simp
    | some e =>
        constructor
        · intro h e' he'
          rw [Option.some.injEq] at he'
          rw [← he']
          exact h
        · intro h
          exact h e rfl
  · intro h
    unfold DiscreteObservationMap.createBelief
    simp only [h, Option.isSome_none, Bool.false_eq_true, if_false]
    constructor
    · unfold DiscreteObservationMap.getBelief
      rw [findEntry_append_right _ _ _ h]
    · rfl
  · intro b hb
    unfold DiscreteObservationMap.createOrGetChild
    rw [hb]
  · intro hb
    unfold DiscreteObservationMap.createOrGetChild
    rw [hb]

theorem getBelief_createBelief_createOrGetChild_witness :
    (findEntry (initNatUnit).childMap 0 = none) ∧
    (((initNatUnit).createBelief 0).2.getBelief 0
      = some ((initNatUnit).createBelief 0).1 ∧
      ((initNatUnit).createBelief 0).1.actionMapping
        = (initNatUnit).actionPool.createActionMapping) := by
  refine ⟨by decide, ?_⟩
  exact (getBelief_createBelief_createOrGetChild ℕ Unit initNatUnit 0).2.1
    (by decide)

/-- Claim C9: `updateVisitCount(o, k)` on an observation with no entry
silently creates an entry with a null child node and visit count `k`:
the number of children grows by one, the total visit count absorbs `k`,
`getBelief(o)` still returns null, and the number of entries with an
actual (non-null) child node is unchanged — so `getNChildren()` can
exceed the number of existing child belief nodes. -/
theorem updateVisitCount_creates_null_entry (Obs AM : Type)
    [DecidableEq Obs] (m : DiscreteObservationMap Obs AM) (o : Obs) (k : ℤ)
    (h : findEntry m.childMap o = none) :
    ((m.updateVisitCount o k).getNChildren = m.getNChildren + 1) ∧
    (findEntry (m.updateVisitCount o k).childMap o
      = some { childNode := none, visitCount := k }) ∧
    ((m.updateVisitCount o k).getTotalVisitCount
      = m.getTotalVisitCount + k) ∧
    ((m.updateVisitCount o k).getBelief o = none) ∧
    (countRealChildren (m.updateVisitCount o k) = countRealChildren m) := by
  have hset : setEntry m.childMap o
      { childNode := none, visitCount := 0 + k }
      = m.childMap ++ [(o, { childNode := none, visitCount := 0 + k })] :=
    setEntry_of_none _ _ _ h
  have hmap : (m.updateVisitCount o k).childMap
      = m.childMap ++ [(o, { childNode := none, visitCount := 0 + k })] := by
    unfold DiscreteObservationMap.updateVisitCount
    simp only [h, Option.getD_none]
    exact hset
  refine ⟨?_, ?_, ?_, ?_, ?_⟩
  · unfold DiscreteObservationMap.getNChildren
    rw [hmap]
    simp
  · rw [hmap]
    rw [findEntry_append_right _ _ _ h]
    simp
  · unfold DiscreteObservationMap.updateVisitCount
      DiscreteObservationMap.getTotalVisitCount
    simp
  · unfold DiscreteObservationMap.getBelief
    rw [hmap, findEntry_append_right _ _ _ h]
  · unfold countRealChildren
    rw [hmap]
    simp

theorem updateVisitCount_creates_null_entry_witness :
    (findEntry (initNatUnit).childMap 0 = none) ∧
    (((initNatUnit).updateVisitCount 0 3).getNChildren
        = (initNatUnit).getNChildren + 1) ∧
    (findEntry ((initNatUnit).updateVisitCount 0 3).childMap 0
        = some { childNode := none, visitCount := 3 }) ∧
    (((initNatUnit).updateVisitCount 0 3).getTotalVisitCount
        = (initNatUnit).getTotalVisitCount + 3) ∧
    (((initNatUnit).updateVisitCount 0 3).getBelief 0
        = none) ∧
    ((countRealChildren ((initNatUnit).updateVisitCount 0 3))
        = countRealChildren (initNatUnit)) := by
  refine ⟨by decide, ?_⟩
  exact updateVisitCount_creates_null_entry ℕ Unit initNatUnit 0 3
    (by decide)

theorem applyOp_preserves_visitSum {Obs AM : Type} [DecidableEq Obs]
    (m : DiscreteObservationMap Obs AM) (op : MapOp Obs)
    (h : m.totalVisitCount = visitCountSum m) :
    (m.applyOp op).totalVisitCount = visitCountSum (m.applyOp op) := by
  cases op with
  | create o =>
      unfold DiscreteObservationMap.applyOp
        DiscreteObservationMap.createBelief
      by_cases hf : (findEntry m.childMap o).isSome
      · simpa [hf] using h
      · simp only [hf, if_false]
        unfold visitCountSum at h ⊢
        simp [h]
  | update o k =>
      unfold DiscreteObservationMap.applyOp
        DiscreteObservationMap.updateVisitCount
      cases hf : findEntry m.childMap o with
      | none =>
          have hset := setEntry_of_none m.childMap o
            { childNode := none, visitCount := 0 + k } hf
          unfold visitCountSum at h ⊢
          simp only [hf, Option.getD_none, defaultEntry] at *
          rw [hset]
          simp [h]
      | some old =>
          have hsum := visitSum_setEntry m.childMap o old
            { old with visitCount := old.visitCount + k } hf
          unfold visitCountSum at h ⊢
          simp only [hf, Option.getD_some]
          rw [hsum]
          rw [← h]
          ring

theorem digitChar_isDigit : ∀ d, d < 10 → isDigitChar (digitChar d) = true := by
  decide

theorem digitChar_val : ∀ d, d < 10 → charToDigit (digitChar d) = d := by
  decide

theorem isDigit_not_ws (c : Char) (h : isDigitChar c = true) :
    isWSChar c = false := by
  by_cases h1 : c = ' '
  · subst h1
    exact absurd h (by decide)
  · by_cases h2 : c = '\t'
    · subst h2
      exact absurd h (by decide)
    · simp [isWSChar, h1, h2]

theorem isDigit_ne_dash (c : Char) (h : isDigitChar c = true) : c ≠ '-' := by
  intro h1
  subst h1
  exact absurd h (by decide)

theorem isDigit_ne_semi (c : Char) (h : isDigitChar c = true) : c ≠ ';' := by
  intro h1
  subst h1
  exact absurd h (by decide)

theorem readDigits_append (ds : List Char)
    (hds : ∀ c ∈ ds, isDigitChar c = true) (rest : List Char)
    (hrest : ∀ c, rest.head? = some c → isDigitChar c = false) :
    ∀ acc, readDigits acc (ds ++ rest)
      = (ds.foldl (fun a c => a * 10 + charToDigit c) acc, rest) := by
  induction ds with
  | nil =>
      intro acc
      cases rest with
      | nil => rfl
      | cons c cs => simp [readDigits, hrest c rfl]
  | cons d ds ih =>
      intro acc
      have hd : isDigitChar d = true := hds d (by simp)
      simp only [List.cons_append, readDigits, hd, if_true, List.foldl_cons]
      exact ih (fun c hc => hds c (by simp [hc])) _

theorem natToChars_digits (n : ℕ) : ∀ c ∈ natToChars n, isDigitChar c = true := by
  induction n using Nat.strong_induction_on with
  | _ n ih =>
      rw [natToChars]
      by_cases h : n < 10
      · rw [dif_pos h]
        intro c hc
        simp only [List.mem_singleton] at hc
        subst hc
        exact digitChar_isDigit n h
      · rw [dif_neg h]
        intro c hc
        rcases List.mem_append.mp hc with h1 | h2
        · exact ih (n / 10) (Nat.div_lt_self (by omega) (by omega)) c h1
        · simp only [List.mem_singleton] at h2
          subst h2
          exact digitChar_isDigit (n % 10) (Nat.mod_lt _ (by omega))

theorem natToChars_foldl (n : ℕ) :
    (natToChars n).foldl (fun a c => a * 10 + charToDigit c) 0 = n := by
  induction n using Nat.strong_induction_on with
  | _ n ih =>
      rw [natToChars]
      by_cases h : n < 10
      · rw [dif_pos h]
        simp [digitChar_val n h]
      · rw [dif_neg h]
        simp only [List.foldl_append, List.foldl_cons, List.foldl_nil]
        rw [ih (n / 10) (Nat.div_lt_self (by omega) (by omega))]
        rw [digitChar_val (n % 10) (Nat.mod_lt _ (by omega))]
        omega

theorem natToChars_ne_nil (n : ℕ) : natToChars n ≠ [] := by
  rw [natToChars]
  by_cases h : n < 10 <;> simp [h]

theorem readDigits_natToChars (n : ℕ) (rest : List Char)
    (hrest : ∀ c, rest.head? = some c → isDigitChar c = false) :
    readDigits 0 (natToChars n ++ rest) = (n, rest) := by
  rw [readDigits_append (natToChars n) (natToChars_digits n) rest hrest 0,
    natToChars_foldl]

theorem dropWS_cons_not (c : Char) (l : List Char) (h : isWSChar c = false) :
    dropWS (c :: l) = c :: l := by
  simp [dropWS, h]

theorem dropWS_cons_space (l : List Char) : dropWS (' ' :: l) = dropWS l := by
  simp [dropWS, isWSChar]

theorem readInt_cons_space (l : List Char) : readInt (' ' :: l) = readInt l := by
  unfold readInt
  rw [dropWS_cons_space]

theorem readInt_natToChars (n : ℕ) (rest : List Char)
    (hrest : ∀ c, rest.head? = some c → isDigitChar c = false) :
    readInt (natToChars n ++ rest) = ((n : ℤ), rest) := by
  obtain ⟨d, ds, hds⟩ : ∃ d ds, natToChars n = d :: ds := by
    cases hnc : natToChars n with
    | nil => exact absurd hnc (natToChars_ne_nil n)
    | cons d ds => exact ⟨d, ds, rfl⟩
  have hd : isDigitChar d = true := natToChars_digits n d (by rw [hds]; simp)
  unfold readInt
  rw [hds, List.cons_append, dropWS_cons_not _ _ (isDigit_not_ws d hd)]
  rw [if_neg (by simp [isDigit_ne_dash d hd])]
  simp only [← List.cons_append, ← hds]
  rw [readDigits_natToChars n rest hrest]

theorem readInt_intToChars (i : ℤ) (rest : List Char)
    (hrest : ∀ c, rest.head? = some c → isDigitChar c = false) :
    readInt (intToChars i ++ rest) = (i, rest) := by
  unfold intToChars
  by_cases h : i < 0
  · rw [if_pos h, List.cons_append]
    unfold readInt
    rw [dropWS_cons_not _ _ (by decide)]
    rw [if_pos (by simp)]
    simp only [List.tail_cons]
    rw [readDigits_natToChars _ rest hrest]
    have : -((i.natAbs : ℕ) : ℤ) = i := by omega
    rw [this]
  · rw [if_neg h]
    rw [readInt_natToChars _ rest hrest]
    have : ((i.toNat : ℕ) : ℤ) = i := by omega
    rw [this]

theorem takeTok_exact (tok rest : List Char)
    (htok : ∀ c ∈ tok, isWSChar c = false)
    (hrest : ∀ c, rest.head? = some c → isWSChar c = true) :
    takeTok (tok ++ rest) = (tok, rest) := by
  induction tok with
  | nil =>
      cases rest with
      | nil => rfl
      | cons c cs => simp [takeTok, hrest c rfl]
  | cons c cs ih =>
      have hc : isWSChar c = false := htok c (by simp)
      simp only [List.cons_append, takeTok, hc, Bool.false_eq_true, if_false,
        List.append_eq]
      rw [ih (fun x hx => htok x (by simp [hx]))]

theorem readToken_exact (tok rest : List Char) (hne : tok ≠ [])
    (htok : ∀ c ∈ tok, isWSChar c = false)
    (hrest : ∀ c, rest.head? = some c → isWSChar c = true) :
    readToken (tok ++ rest) = (tok, rest) := by
  unfold readToken
  obtain ⟨c, cs, rfl⟩ := List.exists_cons_of_ne_nil hne
  rw [List.cons_append, dropWS_cons_not _ _ (htok c (by simp)),
    ← List.cons_append]
  exact takeTok_exact _ _ htok hrest

theorem readToken_cons_space (l : List Char) :
    readToken (' ' :: l) = readToken l := by
  unfold readToken
  rw [dropWS_cons_space]

theorem getlineUntil_exact (d : Char) (pre post : List Char) (h : d ∉ pre) :
    getlineUntil d (pre ++ d :: post) = (pre, post) := by
  induction pre with
  | nil => simp [getlineUntil]
  | cons c cs ih =>
      have hc : ¬(c = d) := by
        intro hh
        exact h (by simp [hh])
      simp only [List.cons_append, getlineUntil, hc, if_false, List.append_eq]
      rw [ih (fun hm => h (by simp [hm]))]

theorem head_space_ws (X : List Char) :
    ∀ c, (' ' :: X).head? = some c → isWSChar c = true := by
  intro c h
  simp only [List.head?_cons, Option.some.injEq] at h
  subst h
  decide

theorem head_space_notdigit (X : List Char) :
    ∀ c, (' ' :: X).head? = some c → isDigitChar c = false := by
  intro c h
  simp only [List.head?_cons, Option.some.injEq] at h
  subst h
  decide

theorem lexLe_total : ∀ (a b : List Char), (lexLe a b || lexLe b a) = true := by
  intro a
  induction a with
  | nil =>
      intro b
      simp [lexLe]
  | cons c cs ih =>
      intro b
      cases b with
      | nil => simp [lexLe]
      | cons d ds =>
          by_cases h1 : c.toNat < d.toNat
          · simp [lexLe, h1]
          · by_cases h2 : d.toNat < c.toNat
            · simp [lexLe, h1, h2]
            · simp only [lexLe, h1, h2, if_false]
              exact ih ds

theorem lexLe_trans : ∀ (a b c : List Char),
    lexLe a b = true → lexLe b c = true → lexLe a c = true := by
  intro a
  induction a with
  | nil =>
      intro b c _ _
      rfl
  | cons x xs ih =>
      intro b c hab hbc
      cases b with
      | nil => simp [lexLe] at hab
      | cons y ys =>
          cases c with
          | nil => simp [lexLe] at hbc
          | cons z zs =>
              simp only [lexLe] at hab hbc ⊢
              by_cases h1 : x.toNat < y.toNat
              · by_cases h2 : y.toNat < z.toNat
                · rw [if_pos (by omega)]
                · by_cases h3 : z.toNat < y.toNat
                  · rw [if_neg h2, if_pos h3] at hbc
                    exact absurd hbc (by simp)
                  · rw [if_pos (by omega)]
              · by_cases h4 : y.toNat < x.toNat
                · rw [if_neg h1, if_pos h4] at hab
                  exact absurd hab (by simp)
                · rw [if_neg h1, if_neg h4] at hab
                  by_cases h2 : y.toNat < z.toNat
                  · rw [if_pos (by omega)]
                  · by_cases h3 : z.toNat < y.toNat
                    · rw [if_neg h2, if_pos h3] at hbc
                      exact absurd hbc (by simp)
                    · rw [if_neg h2, if_neg h3] at hbc
                      rw [if_neg (by omega), if_neg (by omega)]
                      exact ih ys zs hab hbc

theorem exists_perm_of_perm_map {α β : Type} (f : α → β) :
    ∀ {es : List β} {l : List α}, es.Perm (l.map f) →
      ∃ ps : List α, ps.Perm l ∧ es = ps.map f := by
  suffices h : ∀ {es ml : List β}, es.Perm ml → ∀ l : List α, ml = l.map f →
      ∃ ps : List α, ps.Perm l ∧ es = ps.map f by
    intro es l hp
    exact h hp l rfl
  intro es ml hp
  induction hp with
  | nil =>
      intro l hl
      have hnil : l = [] := by
        cases l with
        | nil => rfl
        | cons a t => simp at hl
      subst hnil
      exact ⟨[], List.Perm.refl _, rfl⟩
  | cons x hp ih =>
      intro l hl
      cases l with
      | nil => simp at hl
      | cons a l2 =>
          simp only [List.map_cons, List.cons.injEq] at hl
          obtain ⟨hx, hml⟩ := hl
          obtain ⟨ps, hps, hes⟩ := ih l2 hml
          exact ⟨a :: ps, hps.cons a, by simp [hes, hx]⟩
  | swap x y l0 =>
      intro l hl
      cases l with
      | nil => simp at hl
      | cons a t =>
          cases t with
          | nil => simp at hl
          | cons b t2 =>
              simp only [List.map_cons, List.cons.injEq] at hl
              obtain ⟨hx, hy, hl0⟩ := hl
              refine ⟨b :: a :: t2, List.Perm.swap a b t2, ?_⟩
              simp [hx, hy, hl0]
  | trans h1 h2 ih1 ih2 =>
      intro l hl
      obtain ⟨ps2, hps2, hes2⟩ := ih2 l hl
      obtain ⟨ps1, hps1, hes1⟩ := ih1 ps2 hes2
      exact ⟨ps1, hps1.trans hps2, hes1⟩

theorem findEntry_none_iff {Obs AM : Type} [DecidableEq Obs]
    (l : List (Obs × DiscreteObservationMapEntry AM)) (o : Obs) :
    findEntry l o = none ↔ ∀ p ∈ l, p.1 ≠ o := by
  induction l with
  | nil => simp [findEntry]
  | cons p rest ih =>
      obtain ⟨o', e'⟩ := p
      by_cases ho : o' = o
      · simp [findEntry, ho]
      · simp [findEntry, ho, ih]

theorem findEntry_append_of_none {Obs AM : Type} [DecidableEq Obs]
    (l1 l2 : List (Obs × DiscreteObservationMapEntry AM)) (o : Obs)
    (h : findEntry l1 o = none) :
    findEntry (l1 ++ l2) o = findEntry l2 o := by
  induction l1 with
  | nil => rfl
  | cons p rest ih =>
      obtain ⟨o', e'⟩ := p
      by_cases ho : o' = o
      · simp [findEntry, ho] at h
      · simp only [findEntry, ho, if_false] at h
        simp only [List.cons_append, findEntry, ho, if_false]
        exact ih h

theorem findEntry_mem {Obs AM : Type} [DecidableEq Obs]
    (l : List (Obs × DiscreteObservationMapEntry AM)) (o : Obs)
    (e : DiscreteObservationMapEntry AM) (h : findEntry l o = some e) :
    (o, e) ∈ l := by
  induction l with
  | nil => simp [findEntry] at h
  | cons p rest ih =>
      obtain ⟨o', e'⟩ := p
      by_cases ho : o' = o
      · simp only [findEntry, ho, if_true, Option.some.injEq] at h
        subst ho
        subst h
        exact List.mem_cons_self _ _
      · simp only [findEntry, ho, if_false] at h
        exact List.mem_cons_of_mem _ (ih h)

theorem findEntry_map_entry {Obs AM : Type} [DecidableEq Obs]
    (F : DiscreteObservationMapEntry AM → DiscreteObservationMapEntry AM) :
    ∀ (l : List (Obs × DiscreteObservationMapEntry AM)) (o : Obs),
      findEntry (l.map (fun p => (p.1, F p.2))) o
        = (findEntry l o).map F := by
  intro l o
  induction l with
  | nil => rfl
  | cons p rest ih =>
      obtain ⟨o', e'⟩ := p
      by_cases ho : o' = o
      · simp [findEntry, ho]
      · simp [findEntry, ho, ih]

theorem findEntry_perm {Obs AM : Type} [DecidableEq Obs]
    {l1 l2 : List (Obs × DiscreteObservationMapEntry AM)}
    (h : l1.Perm l2) (hnd : (l2.map Prod.fst).Nodup) (o : Obs) :
    findEntry l1 o = findEntry l2 o := by
  induction h with
  | nil => rfl
  | cons x h ih =>
      obtain ⟨ox, ex⟩ := x
      by_cases hx : ox = o
      · simp [findEntry, hx]
      · simp only [findEntry, hx, if_false]
        apply ih
        simp only [List.map_cons, List.nodup_cons] at hnd
        exact hnd.2
  | swap x y l0 =>
      obtain ⟨ox, ex⟩ := x
      obtain ⟨oy, ey⟩ := y
      simp only [List.map_cons, List.nodup_cons, List.mem_cons] at hnd
      by_cases hx : ox = o
      · by_cases hy : oy = o
        · exact absurd (hx.trans hy.symm) (fun hh => hnd.1 (Or.inl hh))
        · simp [findEntry, hx, hy]
      · simp [findEntry, hx]
  | trans h1 h2 ih1 ih2 =>
      have hmid : (_ : List (Obs × DiscreteObservationMapEntry AM)).map
          Prod.fst |>.Nodup := ((h2.map Prod.fst).nodup_iff).mpr hnd
      exact (ih1 hmid).trans (ih2 hnd)

theorem setEntry_append_last {Obs AM : Type} [DecidableEq Obs]
    (l : List (Obs × DiscreteObservationMapEntry AM)) (o : Obs)
    (e e2 : DiscreteObservationMapEntry AM) (h : findEntry l o = none) :
    setEntry (l ++ [(o, e)]) o e2 = l ++ [(o, e2)] := by
  induction l with
  | nil => simp [setEntry]
  | cons p rest ih =>
      obtain ⟨o', e'⟩ := p
      by_cases ho : o' = o
      · simp [findEntry, ho] at h
      · simp only [findEntry, ho, if_false] at h
        simp only [List.cons_append, setEntry, ho, if_false, List.append_eq]
        rw [ih h]

theorem getBelief_eq_bind {Obs AM : Type} [DecidableEq Obs]
    (m : DiscreteObservationMap Obs AM) (o : Obs) :
    m.getBelief o = (findEntry m.childMap o).bind (fun e => e.childNode) := by
  unfold DiscreteObservationMap.getBelief
  cases findEntry m.childMap o <;> rfl

theorem arrow_node_token (X : List Char) :
    readToken (" -> NODE ".toList ++ X)
      = ("->".toList, ' ' :: ("NODE".toList ++ (' ' :: X))) := by
  have hseg : " -> NODE ".toList
      = ' ' :: ("->".toList ++ (' ' :: ("NODE".toList ++ [' ']))) := by decide
  rw [hseg]
  simp only [List.cons_append, List.append_assoc, List.singleton_append]
  rw [readToken_cons_space]
  exact readToken_exact _ _ (by decide) (by decide) (head_space_ws _)

theorem node_token (X : List Char) :
    readToken (' ' :: ("NODE".toList ++ (' ' :: X)))
      = ("NODE".toList, ' ' :: X) := by
  rw [readToken_cons_space]
  exact readToken_exact _ _ (by decide) (by decide) (head_space_ws _)

theorem intToChars_chars (i : ℤ) :
    ∀ c ∈ intToChars i, isDigitChar c = true ∨ c = '-' := by
  unfold intToChars
  by_cases h : i < 0
  · rw [if_pos h]
    intro c hc
    rcases List.mem_cons.mp hc with h1 | h2
    · exact Or.inr h1
    · exact Or.inl (natToChars_digits _ c h2)
  · rw [if_neg h]
    intro c hc
    exact Or.inl (natToChars_digits _ c hc)

theorem semi_getline (i : ℤ) (X : List Char) :
    getlineUntil ';' (' ' :: (intToChars i ++ ("; ".toList ++ X)))
      = (' ' :: intToChars i, ' ' :: X) := by
  have hseg : "; ".toList = ';' :: [' '] := by decide
  rw [hseg]
  have hsh : (' ' :: (intToChars i ++ ((';' :: [' ']) ++ X)))
      = (' ' :: intToChars i) ++ (';' :: (' ' :: X)) := by simp
  rw [hsh]
  refine getlineUntil_exact ';' _ _ ?_
  intro hmem
  rcases List.mem_cons.mp hmem with h1 | h2
  · exact absurd h1 (by decide)
  · rcases intToChars_chars i ';' h2 with hd | hdash
    · exact absurd rfl (isDigit_ne_semi ';' hd)
    · exact absurd hdash (by decide)

theorem read_space_int_nil (i : ℤ) :
    readInt (' ' :: intToChars i) = (i, []) := by
  have h : ' ' :: intToChars i = ' ' :: (intToChars i ++ []) := by simp
  rw [h, readInt_cons_space]
  refine readInt_intToChars i [] ?_
  intro c hc
  simp at hc

theorem read_space_int_visits (i : ℤ) :
    readInt (' ' :: (intToChars i ++ " visits".toList))
      = (i, " visits".toList) := by
  rw [readInt_cons_space]
  refine readInt_intToChars i _ ?_
  intro c hc
  have hh : " visits".toList = ' ' :: "visits".toList := by decide
  rw [hh] at hc
  exact head_space_notdigit _ c hc

theorem loadEntryLine_spec {Obs AM : Type} [DecidableEq Obs]
    (ser : ObsTextSerializer Obs)
    (hser : ∀ o rest, ser.loadObs ('\t' :: (ser.saveObs o ++ rest)) = (o, rest))
    (m : DiscreteObservationMap Obs AM) (o : Obs)
    (e : DiscreteObservationMapEntry AM)
    (hno : findEntry m.childMap o = none) :
    loadEntryLine ser m (entryLine ser (o, e))
      = { m with childMap := m.childMap
          ++ [(o, loadedEntry m.actionPool.createActionMapping e)] } := by
  have h0 : ser.loadObs (entryLine ser (o, e))
      = (o, " -> NODE ".toList ++ (intToChars (childIdOf e)
        ++ ("; ".toList ++ (intToChars e.visitCount ++ " visits".toList)))) :=
    hser o _
  have hcb : (m.createBelief o).2
      = { m with childMap := m.childMap
          ++ [(o, { childNode := some m.freshNode, visitCount := 0 })] } := by
    unfold DiscreteObservationMap.createBelief
    simp [hno]
  have hsn : setNodeId
      ({ m with childMap := m.childMap
          ++ [(o, { childNode := some m.freshNode, visitCount := 0 })] })
      o (childIdOf e)
      = { m with childMap := m.childMap
          ++ [(o, { loadedEntry m.actionPool.createActionMapping e with
                visitCount := 0 })] } := by
    unfold setNodeId
    simp only [List.map_append]
    have h1 : m.childMap.map (fun p =>
        if p.1 = o then
          (p.1, { p.2 with
            childNode := Option.map (fun n => { n with id := childIdOf e })
              p.2.childNode })
        else p) = m.childMap := by
      have := (findEntry_none_iff m.childMap o).mp hno
      rw [List.map_congr_left (fun p hp => if_neg (this p hp))]
      exact List.map_id _
    rw [h1]
    simp [DiscreteObservationMap.freshNode, loadedEntry]
  simp only [loadEntryLine, h0, arrow_node_token, node_token, semi_getline,
    read_space_int_nil, read_space_int_visits, hcb, hsn]
  unfold assignVisitCount
  have hfind : findEntry (m.childMap
      ++ [(o, { loadedEntry m.actionPool.createActionMapping e with
            visitCount := 0 })]) o
      = some { loadedEntry m.actionPool.createActionMapping e with
            visitCount := 0 } :=
    findEntry_append_right _ _ _ hno
  simp only [hfind, Option.getD_some]
  rw [setEntry_append_last _ _ _ _ hno]
  simp [loadedEntry]

theorem loadPairs_spec {Obs AM : Type} [DecidableEq Obs]
    (ser : ObsTextSerializer Obs)
    (hser : ∀ o rest, ser.loadObs ('\t' :: (ser.saveObs o ++ rest)) = (o, rest)) :
    ∀ (ps : List (Obs × DiscreteObservationMapEntry AM))
      (m : DiscreteObservationMap Obs AM),
      (∀ p ∈ ps, findEntry m.childMap p.1 = none) →
      (ps.map Prod.fst).Nodup →
      ps.foldl (fun acc p => loadEntryLine ser acc (entryLine ser p)) m
        = { m with childMap := m.childMap ++ ps.map (fun p =>
            (p.1, loadedEntry m.actionPool.createActionMapping p.2)) } := by
  intro ps
  induction ps with
  | nil =>
      intro m _ _
      simp
  | cons p ps ih =>
      obtain ⟨o, e⟩ := p
      intro m hdisj hnodup
      simp only [List.foldl_cons]
      rw [loadEntryLine_spec ser hser m o e (hdisj (o, e) (by simp))]
      have hnodup2 : (ps.map Prod.fst).Nodup := by
        simp only [List.map_cons, List.nodup_cons] at hnodup
        exact hnodup.2
      have hnotin : o ∉ ps.map Prod.fst := by
        simp only [List.map_cons, List.nodup_cons] at hnodup
        exact hnodup.1
      rw [ih _ ?_ hnodup2]
      · simp
      · intro q hq
        simp only []
        refine (findEntry_none_iff _ _).mpr ?_
        intro r hr
        rcases List.mem_append.mp hr with h1 | h2
        · exact (findEntry_none_iff _ _).mp (hdisj q (by simp [hq])) r h1
        · simp only [List.mem_singleton] at h2
          subst h2
          intro hoq
          apply hnotin
          rw [show o = q.1 from hoq]
          exact List.mem_map_of_mem Prod.fst hq

theorem loadEntryLines_eq_foldl {Obs AM : Type} [DecidableEq Obs]
    (ser : ObsTextSerializer Obs) :
    ∀ (lines extra : List (List Char)) (m : DiscreteObservationMap Obs AM),
      loadEntryLines ser lines.length m (lines ++ extra)
        = lines.foldl (loadEntryLine ser) m := by
  intro lines
  induction lines with
  | nil =>
      intro extra m
      rfl
  | cons line rest ih =>
      intro extra m
      simp only [List.length_cons, List.cons_append, loadEntryLines,
        List.foldl_cons]
      exact ih extra _

/-- Claim C5: saving a discrete observation mapping with
`saveObservationMapping` and loading the resulting text with
`loadObservationMapping` reproduces the mapping exactly — the number of
children, the total visit count, each entry's visit count and each child
belief node's id are the same after the round trip — and the saved form
is the header line, one line per child entry sorted lexicographically,
and a closing brace.  Hypotheses: the per-observation serializer
round-trips, the mapping's keys are pairwise distinct (as the
`unordered_map` guarantees), and every entry carries a child node (saving
dereferences the child pointer unconditionally). -/
theorem saveLoad_roundtrip (Obs AM : Type) [DecidableEq Obs]
    (ser : ObsTextSerializer Obs) (m : DiscreteObservationMap Obs AM)
    (pool2 : ActionPool AM)
    (hser : ∀ o rest, ser.loadObs ('\t' :: (ser.saveObs o ++ rest)) = (o, rest))
    (hnodup : (m.childMap.map Prod.fst).Nodup)
    (hchild : ∀ p ∈ m.childMap, p.2.childNode.isSome = true) :
    ((loadObservationMapping ser pool2
        (saveObservationMapping ser m)).getNChildren = m.getNChildren) ∧
    ((loadObservationMapping ser pool2
        (saveObservationMapping ser m)).getTotalVisitCount
      = m.getTotalVisitCount) ∧
    (∀ o, (loadObservationMapping ser pool2
        (saveObservationMapping ser m)).getVisitCount o
      = m.getVisitCount o) ∧
    (∀ o, Option.map (fun n => n.id) ((loadObservationMapping ser pool2
        (saveObservationMapping ser m)).getBelief o)
      = Option.map (fun n => n.id) (m.getBelief o)) ∧
    (saveObservationMapping ser m
      = headerLine m :: ((m.childMap.map (entryLine ser)).mergeSort lexLe
          ++ ["\x7d".toList])) ∧
    List.Pairwise (fun a b => lexLe a b = true)
      ((m.childMap.map (entryLine ser)).mergeSort lexLe) ∧
    ((m.childMap.map (entryLine ser)).mergeSort lexLe).Perm
      (m.childMap.map (entryLine ser)) := by
  have hperm : ((m.childMap.map (entryLine ser)).mergeSort lexLe).Perm
      (m.childMap.map (entryLine ser)) := List.mergeSort_perm _ _
  obtain ⟨ps, hps, hes⟩ := exists_perm_of_perm_map (entryLine ser) hperm
  have hndps : (ps.map Prod.fst).Nodup :=
    ((hps.map Prod.fst).nodup_iff).mpr hnodup
  have hh1 : readInt (headerLine m)
      = ((m.childMap.length : ℤ), ' ' :: ("observation".toList
        ++ (' ' :: ("children;".toList
        ++ (' ' :: (intToChars m.totalVisitCount
          ++ " visits \x7b".toList)))))) := by
    unfold headerLine
    have hseg : " observation children; ".toList
        = ' ' :: ("observation".toList
          ++ (' ' :: ("children;".toList ++ [' ']))) := by decide
    rw [hseg]
    simp only [List.cons_append, List.append_assoc, List.singleton_append]
    exact readInt_natToChars _ _ (head_space_notdigit _)
  have hh2 : readToken (' ' :: ("observation".toList
      ++ (' ' :: ("children;".toList
      ++ (' ' :: (intToChars m.totalVisitCount ++ " visits \x7b".toList))))))
      = ("observation".toList, ' ' :: ("children;".toList
        ++ (' ' :: (intToChars m.totalVisitCount
          ++ " visits \x7b".toList)))) := by
    rw [readToken_cons_space]
    exact readToken_exact _ _ (by decide) (by decide) (head_space_ws _)
  have hh3 : readToken (' ' :: ("children;".toList
      ++ (' ' :: (intToChars m.totalVisitCount ++ " visits \x7b".toList))))
      = ("children;".toList,
        ' ' :: (intToChars m.totalVisitCount ++ " visits \x7b".toList)) := by
    rw [readToken_cons_space]
    exact readToken_exact _ _ (by decide) (by decide) (head_space_ws _)
  have hh4 : readInt (' ' :: (intToChars m.totalVisitCount
      ++ " visits \x7b".toList))
      = (m.totalVisitCount, " visits \x7b".toList) := by
    rw [readInt_cons_space]
    refine readInt_intToChars _ _ ?_
    intro c hc
    have hx : " visits \x7b".toList = ' ' :: "visits \x7b".toList := by decide
    rw [hx] at hc
    exact head_space_notdigit _ c hc
  have hlen : ((m.childMap.map (entryLine ser)).mergeSort lexLe).length
      = m.childMap.length := by
    rw [hperm.length_eq, List.length_map]
  have hloaded : loadObservationMapping ser pool2
      (saveObservationMapping ser m)
      = { actionPool := pool2,
          childMap := ps.map (fun p =>
            (p.1, loadedEntry pool2.createActionMapping p.2)),
          totalVisitCount := m.totalVisitCount } := by
    show loadObservationMapping ser pool2
        (headerLine m :: ((m.childMap.map (entryLine ser)).mergeSort lexLe
          ++ ["\x7d".toList])) = _
    simp only [loadObservationMapping, hh1, hh2, hh3, hh4]
    rw [Int.toNat_natCast, ← hlen, loadEntryLines_eq_foldl, hes,
      List.foldl_map]
    rw [loadPairs_spec ser hser ps _ ?hd hndps]
    · simp [DiscreteObservationMap.init]
    case hd =>
      intro p hp
      rfl
  refine ⟨?_, ?_, ?_, ?_, rfl,
    List.sorted_mergeSort lexLe_trans lexLe_total _, hperm⟩
  · rw [hloaded]
    unfold DiscreteObservationMap.getNChildren
    simp [hps.length_eq]
  · rw [hloaded]
    rfl
  · intro o
    rw [hloaded]
    unfold DiscreteObservationMap.getVisitCount
    simp only []
    rw [findEntry_map_entry (loadedEntry pool2.createActionMapping) ps o]
    rw [findEntry_perm hps hnodup o]
    cases hf : findEntry m.childMap o with
    | none => rfl
    | some e => simp [loadedEntry]
  · intro o
    rw [hloaded]
    rw [getBelief_eq_bind, getBelief_eq_bind]
    simp only []
    rw [findEntry_map_entry (loadedEntry pool2.createActionMapping) ps o]
    rw [findEntry_perm hps hnodup o]
    cases hf : findEntry m.childMap o with
    | none => rfl
    | some e =>
        have hmem := findEntry_mem _ _ _ hf
        have hsome := hchild (o, e) hmem
        obtain ⟨n, hn⟩ := Option.isSome_iff_exists.mp hsome
        have hn2 : e.childNode = some n := hn
        simp [loadedEntry, childIdOf, hn2]

theorem natObsSerializer_roundtrip :
    ∀ (o : ℕ) (rest : List Char),
      natObsSerializer.loadObs ('\t' :: (natObsSerializer.saveObs o ++ rest))
        = (o, rest) := by
  intro o rest
  have hx : natObsSerializer.saveObs o ++ rest
      = '(' :: (natToChars o ++ (')' :: rest)) := by
    show ('(' :: (natToChars o ++ [')'])) ++ rest = _
    simp
  rw [hx]
  show (if ('\t' : Char) = '\t' ∧ ('(' : Char) = '(' then
      let r := readDigits 0 (natToChars o ++ (')' :: rest))
      if r.2.head? = some ')' then (r.1, r.2.tail) else (r.1, r.2)
    else (0, '\t' :: ('(' :: (natToChars o ++ (')' :: rest))))) = (o, rest)
  rw [if_pos ⟨rfl, rfl⟩]
  rw [readDigits_natToChars o (')' :: rest) ?hh]
  · simp
  case hh =>
    intro c hc
    simp only [List.head?_cons, Option.some.injEq] at hc
    subst hc
    decide

theorem saveLoad_roundtrip_witness :
    ((List.map Prod.fst sampleMap.childMap).Nodup) ∧
    ((loadObservationMapping natObsSerializer { createActionMapping := () }
        (saveObservationMapping natObsSerializer sampleMap)).getNChildren
      = sampleMap.getNChildren) ∧
    ((loadObservationMapping natObsSerializer { createActionMapping := () }
        (saveObservationMapping natObsSerializer sampleMap)).getTotalVisitCount
      = sampleMap.getTotalVisitCount) ∧
    ((loadObservationMapping natObsSerializer { createActionMapping := () }
        (saveObservationMapping natObsSerializer sampleMap)).getVisitCount 31
      = sampleMap.getVisitCount 31) ∧
    (Option.map (fun n => n.id) ((loadObservationMapping natObsSerializer
        { createActionMapping := () }
        (saveObservationMapping natObsSerializer sampleMap)).getBelief 5)
      = Option.map (fun n => n.id) (sampleMap.getBelief 5)) := by
  have h := saveLoad_roundtrip ℕ Unit natObsSerializer sampleMap
    { createActionMapping := () } natObsSerializer_roundtrip
    (by decide) (by decide)
  exact ⟨by decide, h.1, h.2.1, h.2.2.1 31, h.2.2.2.1 5⟩

/-- Claim C4: for every discrete observation mapping, after any finite
sequence of `createBelief` and `updateVisitCount` calls starting from a
freshly constructed mapping, `getTotalVisitCount()` equals the sum of the
`visitCount` fields over all entries of the mapping. -/
theorem totalVisitCount_eq_visitSum (Obs AM : Type) [DecidableEq Obs]
    (pool : ActionPool AM) (ops : List (MapOp Obs)) :
    ((DiscreteObservationMap.init pool).applyOps ops).getTotalVisitCount
      = visitCountSum ((DiscreteObservationMap.init pool).applyOps ops) := by
  suffices h : ∀ (m : DiscreteObservationMap Obs AM),
      m.totalVisitCount = visitCountSum m →
      (m.applyOps ops).totalVisitCount = visitCountSum (m.applyOps ops) by
    exact h _ (by simp [DiscreteObservationMap.init, visitCountSum])
  induction ops with
  | nil =>
      intro m hm
      exact hm
  | cons op rest ih =>
      intro m hm
      unfold DiscreteObservationMap.applyOps at ih ⊢
      simp only [List.foldl_cons]
      exact ih _ (applyOp_preserves_visitSum m op hm)

end Solver

namespace Nav2D

/-- Claim C7 (code bug): at direction 0.5 and turn amount 0.2 the code's
center-of-rotation offset angle is 0.25 — C++ precedence makes the
ternary result the entire direction argument, dropping the direction —
while the spec's intended formula gives direction + 0.25 = 0.75; and at
direction −0.6 and turn amount 0.1 the code picks −0.25 (its condition
tests direction + turnAmount > 0) while the intended value is −0.35
(condition on turnAmount alone). -/
theorem centerOffsetAngle_mismatch :
    centerOffsetAngle 0.5 0.2 = 0.25 ∧
    centerOffsetAngleSpec 0.5 0.2 = 0.75 ∧
    centerOffsetAngle 0.5 0.2 ≠ centerOffsetAngleSpec 0.5 0.2 ∧
    centerOffsetAngle (-0.6) 0.1 = -0.25 ∧
    centerOffsetAngleSpec (-0.6) 0.1 = -0.35 := by
  unfold centerOffsetAngle centerOffsetAngleSpec
  norm_num

theorem loadChangeBlock_spec :
    ∀ (ls extra : List (List Char)) (acc : List Nav2DChange),
      loadChangeBlock ls.length (ls ++ extra) acc
        = (acc ++ ls.filterMap parseChangeLine, extra) := by
  intro ls
  induction ls with
  | nil =>
      intro extra acc
      simp [loadChangeBlock]
  | cons l rest ih =>
      intro extra acc
      simp only [List.length_cons, List.cons_append, loadChangeBlock,
        List.append_eq]
      rw [ih extra (acc ++ (parseChangeLine l).toList)]
      rw [List.append_assoc]
      cases hp : parseChangeLine l <;>
        simp [List.filterMap_cons, hp]

theorem changeBlockHeader_parse_time (t : ℤ) (n : ℕ) :
    Solver.readToken (changeBlockHeader t n)
      = ("t".toList, ' ' :: (Solver.intToChars t
          ++ (" n ".toList ++ Solver.natToChars n))) := by
  unfold changeBlockHeader
  have hseg : "t ".toList = 't' :: [' '] := by decide
  rw [hseg]
  have hsh : ('t' :: [' ']) ++ (Solver.intToChars t
      ++ (" n ".toList ++ Solver.natToChars n))
      = "t".toList ++ (' ' :: (Solver.intToChars t
          ++ (" n ".toList ++ Solver.natToChars n))) := by simp
  rw [hsh]
  exact Solver.readToken_exact _ _ (by decide) (by decide)
    (Solver.head_space_ws _)

theorem space_int_then (t : ℤ) (X : List Char)
    (hX : ∀ c, X.head? = some c → Solver.isDigitChar c = false) :
    Solver.readInt (' ' :: (Solver.intToChars t ++ X)) = (t, X) := by
  rw [Solver.readInt_cons_space]
  exact Solver.readInt_intToChars t X hX

theorem n_token_parse (n : ℕ) :
    Solver.readToken (" n ".toList ++ Solver.natToChars n)
      = ("n".toList, ' ' :: Solver.natToChars n) := by
  have hseg : " n ".toList = ' ' :: ('n' :: [' ']) := by decide
  rw [hseg]
  have hsh : (' ' :: ('n' :: [' '])) ++ Solver.natToChars n
      = ' ' :: ("n".toList ++ (' ' :: Solver.natToChars n)) := by
    simp
  rw [hsh, Solver.readToken_cons_space]
  exact Solver.readToken_exact _ _ (by decide) (by decide)
    (Solver.head_space_ws _)

theorem space_nat_end (n : ℕ) :
    Solver.readInt (' ' :: Solver.natToChars n) = ((n : ℤ), []) := by
  have h : ' ' :: Solver.natToChars n
      = ' ' :: (Solver.natToChars n ++ []) := by simp
  rw [h, Solver.readInt_cons_space]
  refine Solver.readInt_natToChars n [] ?_
  intro c hc
  simp at hc

theorem loadChangesGo_spec :
    ∀ (blocks : List (ℤ × List (List Char))) (times : List ℤ)
      (cmap : List (ℤ × List Nav2DChange)),
      loadChangesGo (encodeBlocks blocks) times cmap
        = (times ++ blocks.map Prod.fst,
           blocks.foldl (fun acc b =>
             setTime acc b.1 (b.2.filterMap parseChangeLine)) cmap) := by
  intro blocks
  induction blocks with
  | nil =>
      intro times cmap
      simp [encodeBlocks, loadChangesGo]
  | cons b rest ih =>
      obtain ⟨t, ls⟩ := b
      intro times cmap
      have henc : encodeBlocks ((t, ls) :: rest)
          = changeBlockHeader t ls.length :: (ls ++ encodeBlocks rest) := by
        simp [encodeBlocks]
      rw [henc]
      rw [loadChangesGo]
      rw [changeBlockHeader_parse_time t ls.length]
      rw [space_int_then t _ ?hd1]
      case hd1 =>
        intro c hc
        have hx : " n ".toList ++ Solver.natToChars ls.length
            = ' ' :: (('n' :: [' ']) ++ Solver.natToChars ls.length) := by
          simp
        rw [hx] at hc
        exact Solver.head_space_notdigit _ c hc
      rw [n_token_parse ls.length]
      rw [space_nat_end ls.length]
      simp only [Int.toNat_natCast]
      rw [loadChangeBlock_spec ls (encodeBlocks rest) []]
      simp only [List.nil_append]
      rw [ih (times ++ [t]) (setTime cmap t (ls.filterMap parseChangeLine))]
      simp [List.append_assoc]

theorem lookupTime_setTime_self (cmap : List (ℤ × List Nav2DChange))
    (t : ℤ) (cs : List Nav2DChange) :
    lookupTime (setTime cmap t cs) t = some cs := by
  induction cmap with
  | nil => simp [setTime, lookupTime]
  | cons p rest ih =>
      obtain ⟨t', cs'⟩ := p
      by_cases ht : t' = t
      · simp [setTime, lookupTime, ht]
      · simp [setTime, lookupTime, ht, ih]

theorem lookupTime_setTime_ne (cmap : List (ℤ × List Nav2DChange))
    (t t2 : ℤ) (cs : List Nav2DChange) (h : t2 ≠ t) :
    lookupTime (setTime cmap t2 cs) t = lookupTime cmap t := by
  induction cmap with
  | nil => simp [setTime, lookupTime, h]
  | cons p rest ih =>
      obtain ⟨t', cs'⟩ := p
      by_cases ht : t' = t2
      · subst ht
        simp [setTime, lookupTime, h]
      · simp [setTime, lookupTime, ht, ih]

theorem lookup_foldl_not_mem :
    ∀ (blocks : List (ℤ × List (List Char)))
      (cmap : List (ℤ × List Nav2DChange)) (t : ℤ),
      t ∉ blocks.map Prod.fst →
      lookupTime (blocks.foldl (fun acc b =>
        setTime acc b.1 (b.2.filterMap parseChangeLine)) cmap) t
        = lookupTime cmap t := by
  intro blocks
  induction blocks with
  | nil =>
      intro cmap t _
      rfl
  | cons b rest ih =>
      obtain ⟨t', ls⟩ := b
      intro cmap t hnm
      simp only [List.map_cons, List.mem_cons] at hnm
      push_neg at hnm
      simp only [List.foldl_cons]
      rw [ih _ t hnm.2]
      exact lookupTime_setTime_ne cmap t t' _ (fun hh => hnm.1 hh.symm)

theorem lookup_foldl_mem :
    ∀ (blocks : List (ℤ × List (List Char)))
      (cmap : List (ℤ × List Nav2DChange)) (t : ℤ) (ls : List (List Char)),
      (blocks.map Prod.fst).Nodup → (t, ls) ∈ blocks →
      lookupTime (blocks.foldl (fun acc b =>
        setTime acc b.1 (b.2.filterMap parseChangeLine)) cmap) t
        = some (ls.filterMap parseChangeLine) := by
  intro blocks
  induction blocks with
  | nil =>
      intro cmap t ls _ hmem
      simp at hmem
  | cons b rest ih =>
      obtain ⟨t', ls'⟩ := b
      intro cmap t ls hnd hmem
      simp only [List.map_cons, List.nodup_cons] at hnd
      simp only [List.foldl_cons]
      rcases List.mem_cons.mp hmem with hhd | htl
      · rw [Prod.mk.injEq] at hhd
        obtain ⟨h1, h2⟩ := hhd
        subst h1
        subst h2
        rw [lookup_foldl_not_mem rest _ t hnd.1]
        exact lookupTime_setTime_self cmap t _
      · exact ih _ t ls hnd.2 htl

/-- Claim C8: on a well-formed changes file whose block times are
strictly increasing (the format requirement of §6), `loadChanges` returns
exactly those times in order — hence a strictly increasing list — and a
change line whose operation is not "ADD" (the only recognized operation)
is skipped with a warning and does not appear among the stored changes
for its time, while parsing of the remaining lines continues: the changes
stored for each block are exactly its "ADD" lines, in order. -/
theorem loadChanges_spec (blocks : List (ℤ × List (List Char)))
    (hsort : List.Chain' (· < ·) (blocks.map Prod.fst)) :
    ((loadChanges (encodeBlocks blocks)).1 = blocks.map Prod.fst) ∧
    List.Chain' (· < ·) ((loadChanges (encodeBlocks blocks)).1) ∧
    (∀ t ls, (t, ls) ∈ blocks →
      lookupTime (loadChanges (encodeBlocks blocks)).2 t
        = some (ls.filterMap parseChangeLine)) ∧
    (∀ line, (Solver.readToken line).1 ≠ "ADD".toList →
      parseChangeLine line = none) := by
  have hnd : (blocks.map Prod.fst).Nodup := by
    have hp : List.Pairwise (· < ·) (blocks.map Prod.fst) :=
      List.chain'_iff_pairwise.mp hsort
    exact hp.imp (fun hab => ne_of_lt hab)
  have hgo := loadChangesGo_spec blocks [] []
  unfold loadChanges
  rw [hgo]
  refine ⟨by simp, by simpa using hsort, ?_, ?_⟩
  · intro t ls hmem
    exact lookup_foldl_mem blocks [] t ls hnd hmem
  · intro line h
    simp only [parseChangeLine]
    rw [if_pos h]

theorem loadChanges_spec_witness :
    List.Chain' (· < ·) (sampleBlocks.map Prod.fst) ∧
    (((loadChanges (encodeBlocks sampleBlocks)).1
        = sampleBlocks.map Prod.fst) ∧
      List.Chain' (· < ·) ((loadChanges (encodeBlocks sampleBlocks)).1) ∧
      (∀ t ls, (t, ls) ∈ sampleBlocks →
        lookupTime (loadChanges (encodeBlocks sampleBlocks)).2 t
          = some (ls.filterMap parseChangeLine)) ∧
      (∀ line, (Solver.readToken line).1 ≠ "ADD".toList →
        parseChangeLine line = none)) :=
  ⟨by norm_num [sampleBlocks, List.chain'_cons],
    loadChanges_spec sampleBlocks
      (by norm_num [sampleBlocks, List.chain'_cons])⟩

end Nav2D

namespace Nav2D

theorem polar_one_quarter : Vector2D.polar 1 0.25 = { x := 0, y := 1 } := by
  unfold Vector2D.polar
  have h : (2 : ℝ) * Real.pi * 0.25 = Real.pi / 2 := by ring
  rw [h, Real.cos_pi_div_two, Real.sin_pi_div_two]
  norm_num

theorem tryPathStep_straight (env : TryPathEnv) (hturn : env.turnAmount = 0)
    (step : ℕ) (ls : LoopState) :
    tryPathStep env step ls
      = { currentScalar := (step : ℝ) / (env.m.interpolationStepCount : ℝ),
          currentPosition := env.position.addVec
            (Vector2D.smul ((step : ℝ) / (env.m.interpolationStepCount : ℝ))
              env.velocity),
          currentDirection := ls.currentDirection,
          inGoal := ls.inGoal, hasCollision := ls.hasCollision } := by
  unfold tryPathStep
  rw [if_pos hturn]

theorem tryPathGo_straight (env : TryPathEnv)
    (hturn : env.turnAmount = 0) :
    ∀ (n k : ℕ) (ls : LoopState), 1 ≤ n →
      (∀ s ∈ List.range' k n,
        env.m.mapArea.contains (env.position.addVec
          (Vector2D.smul ((s : ℝ) / (env.m.interpolationStepCount : ℝ))
            env.velocity)) ∧
        ¬ isInside env.m.obstacles (env.position.addVec
          (Vector2D.smul ((s : ℝ) / (env.m.interpolationStepCount : ℝ))
            env.velocity)) ∧
        ¬ isInside env.m.goals (env.position.addVec
          (Vector2D.smul ((s : ℝ) / (env.m.interpolationStepCount : ℝ))
            env.velocity))) →
      tryPathGo env (List.range' k n) ls
        = { currentScalar := ((k + n - 1 : ℕ) : ℝ)
              / (env.m.interpolationStepCount : ℝ),
            currentPosition := env.position.addVec
              (Vector2D.smul (((k + n - 1 : ℕ) : ℝ)
                / (env.m.interpolationStepCount : ℝ)) env.velocity),
            currentDirection := ls.currentDirection,
            inGoal := ls.inGoal, hasCollision := ls.hasCollision } := by
  intro n
  induction n with
  | zero =>
      intro k ls h1 _
      exact absurd h1 (by omega)
  | succ nn ih =>
      intro k ls _ hok
      have hk := hok k (by simp only [List.mem_range'_1]; omega)
      rw [List.range'_succ, tryPathGo, tryPathStep_straight env hturn]
      rw [if_neg ?hc]
      case hc =>
        push_neg
        exact ⟨hk.1, hk.2.1⟩
      rw [if_neg hk.2.2]
      cases nn with
      | zero =>
          rw [show List.range' (k + 1) 0 = [] from rfl, tryPathGo]
          have hkk : k + 1 - 1 = k := by omega
          rw [hkk]
      | succ mm =>
          rw [ih (k + 1) _ (by omega) ?hok2]
          case hok2 =>
            intro s hs
            refine hok s ?_
            simp only [List.mem_range'_1] at hs ⊢
            omega
          have hkk : k + 1 + (mm + 1) - 1 = k + (mm + 1 + 1) - 1 := by omega
          rw [hkk]

theorem tryPath_straight (cpt cpd cpr crash goal y : ℝ)
    (hy0 : 0 ≤ y) (hy : y ≤ 4) :
    tryPathLoop (s3Model cpt cpd cpr crash goal)
        { x := 0, y := y, direction := 0.25 } 1 0
      = { currentScalar := 1, currentPosition := { x := 0, y := y + 1 },
          currentDirection := 0.25, inGoal := false,
          hasCollision := false } ∧
    tryPath (s3Model cpt cpd cpr crash goal)
        { x := 0, y := y, direction := 0.25 } 1 0
      = ({ x := 0, y := y + 1, direction := 0.25 }, -cpt - cpd) := by
  have hloop : tryPathLoop (s3Model cpt cpd cpr crash goal)
      { x := 0, y := y, direction := 0.25 } 1 0
      = { currentScalar := 1, currentPosition := { x := 0, y := y + 1 },
          currentDirection := 0.25, inGoal := false,
          hasCollision := false } := by
    unfold tryPathLoop
    simp only [s3Model, polar_one_quarter]
    rw [tryPathGo_straight _ (by norm_num) 10 1 _ (by norm_num) ?hok]
    case hok =>
      intro s hs
      simp only [List.mem_range'_1] at hs
      have hs10 : (s : ℝ) ≤ 10 := by
        have : s ≤ 10 := by omega
        exact_mod_cast this
      have hs0 : (0 : ℝ) ≤ (s : ℝ) := by positivity
      have hd0 : (0 : ℝ) ≤ (s : ℝ) / 10 := by positivity
      have hd1 : (s : ℝ) / 10 ≤ 1 := by linarith
      refine ⟨?_, ?_, ?_⟩
      · unfold Rectangle2D.contains Point2D.addVec Vector2D.smul
        norm_num
        constructor <;> nlinarith
      · simp [isInside]
      · simp [isInside]
    unfold Point2D.addVec Vector2D.smul
    norm_num
  refine ⟨hloop, ?_⟩
  unfold tryPath
  rw [hloop]
  simp only [s3Model]
  rw [if_pos (by norm_num : (0 : ℝ) * 1 = 0)]
  rw [if_pos (by norm_num : (0 : ℝ) * 1 = 0)]
  have hdist : (Point2D.sub { x := 0, y := y + 1 } { x := 0, y := y
      }).magnitude = 1 := by
    unfold Point2D.sub Vector2D.magnitude
    rw [show ((0 : ℝ) - 0) ^ 2 + (y + 1 - y) ^ 2 = 1 by ring]
    exact Real.sqrt_one
  rw [hdist]
  norm_num

/-- Claim C6: in the 2-D navigation model with maxSpeed = 1,
timeStepLength = 1, no noise (tryPath applied directly, the noiseless
dynamics), interpolationStepCount = 10 and no obstacles, applying
tryPath five times at full speed with zero rotational speed starting
from (0,0) facing (0,5) (direction 0.25 turns) reaches position (0,5)
exactly — in particular within 0.01 of it — with hasCollision false at
every one of the five steps, and the accumulated reward is
−5·costPerUnitTime − 5·costPerUnitDistance. -/
theorem nav2d_straight_path (cpt cpd cpr crash goal : ℝ) :
    ((s3Step (s3Model cpt cpd cpr crash goal))^[5]
        ({ x := 0, y := 0, direction := 0.25 }, 0)).1
      = { x := 0, y := 5, direction := 0.25 } ∧
    Real.sqrt ((((s3Step (s3Model cpt cpd cpr crash goal))^[5]
          ({ x := 0, y := 0, direction := 0.25 }, 0)).1.x - 0) ^ 2
        + (((s3Step (s3Model cpt cpd cpr crash goal))^[5]
          ({ x := 0, y := 0, direction := 0.25 }, 0)).1.y - 5) ^ 2)
      ≤ 0.01 ∧
    ((s3Step (s3Model cpt cpd cpr crash goal))^[5]
        ({ x := 0, y := 0, direction := 0.25 }, 0)).2
      = -(5 * cpt) - 5 * cpd ∧
    (tryPathLoop (s3Model cpt cpd cpr crash goal)
        { x := 0, y := 0, direction := 0.25 } 1 0).hasCollision = false ∧
    (tryPathLoop (s3Model cpt cpd cpr crash goal)
        { x := 0, y := 1, direction := 0.25 } 1 0).hasCollision = false ∧
    (tryPathLoop (s3Model cpt cpd cpr crash goal)
        { x := 0, y := 2, direction := 0.25 } 1 0).hasCollision = false ∧
    (tryPathLoop (s3Model cpt cpd cpr crash goal)
        { x := 0, y := 3, direction := 0.25 } 1 0).hasCollision = false ∧
    (tryPathLoop (s3Model cpt cpd cpr crash goal)
        { x := 0, y := 4, direction := 0.25 } 1 0).hasCollision = false := by
  have hstep : ∀ (acc yv : ℝ), 0 ≤ yv → yv ≤ 4 →
      s3Step (s3Model cpt cpd cpr crash goal)
        ({ x := 0, y := yv, direction := 0.25 }, acc)
        = ({ x := 0, y := yv + 1, direction := 0.25 },
            acc + (-cpt - cpd)) := by
    intro acc yv h0 h1
    unfold s3Step
    rw [(tryPath_straight cpt cpd cpr crash goal yv h0 h1).2]
  have h5 : (s3Step (s3Model cpt cpd cpr crash goal))^[5]
      ({ x := 0, y := 0, direction := 0.25 }, 0)
      = ({ x := 0, y := 0 + 1 + 1 + 1 + 1 + 1, direction := 0.25 },
          0 + (-cpt - cpd) + (-cpt - cpd) + (-cpt - cpd) + (-cpt - cpd)
            + (-cpt - cpd)) := by
    rw [show (5 : ℕ) = 4 + 1 from rfl, Function.iterate_succ_apply,
      hstep 0 0 (by norm_num) (by norm_num)]
    rw [show (4 : ℕ) = 3 + 1 from rfl, Function.iterate_succ_apply,
      hstep _ _ (by norm_num) (by norm_num)]
    rw [show (3 : ℕ) = 2 + 1 from rfl, Function.iterate_succ_apply,
      hstep _ _ (by norm_num) (by norm_num)]
    rw [show (2 : ℕ) = 1 + 1 from rfl, Function.iterate_succ_apply,
      hstep _ _ (by norm_num) (by norm_num)]
    rw [show (1 : ℕ) = 0 + 1 from rfl, Function.iterate_succ_apply,
      hstep _ _ (by norm_num) (by norm_num)]
    rw [Function.iterate_zero_apply]
  refine ⟨?_, ?_, ?_, ?_, ?_, ?_, ?_, ?_⟩
  · rw [h5]
    norm_num
  · rw [h5]
    have hz : ((({ x := 0, y := 0 + 1 + 1 + 1 + 1 + 1, direction := 0.25 },
        0 + (-cpt - cpd) + (-cpt - cpd) + (-cpt - cpd) + (-cpt - cpd)
          + (-cpt - cpd)) :
          Nav2DState × ℝ).1.x - 0) ^ 2
        + ((({ x := 0, y := 0 + 1 + 1 + 1 + 1 + 1, direction := 0.25 },
        0 + (-cpt - cpd) + (-cpt - cpd) + (-cpt - cpd) + (-cpt - cpd)
          + (-cpt - cpd)) :
          Nav2DState × ℝ).1.y - 5) ^ 2 = 0 := by
      norm_num
    rw [hz, Real.sqrt_zero]
    norm_num
  · rw [h5]
    norm_num
    ring
  · rw [(tryPath_straight cpt cpd cpr crash goal 0 (by norm_num)
      (by norm_num)).1]
  · rw [(tryPath_straight cpt cpd cpr crash goal 1 (by norm_num)
      (by norm_num)).1]
  · rw [(tryPath_straight cpt cpd cpr crash goal 2 (by norm_num)
      (by norm_num)).1]
  · rw [(tryPath_straight cpt cpd cpr crash goal 3 (by norm_num)
      (by norm_num)).1]
  · rw [(tryPath_straight cpt cpd cpr crash goal 4 (by norm_num)
      (by norm_num)).1]

end Nav2D
